import Mathlib

/-!
Verification development for the AI coding-agent backend
(`backend/agent_core.py`, `backend/code_executor/executor.py`, `backend/app.py`).

The Python code is shallowly embedded: JSON values become the inductive
`JVal`; `json.dumps(·, sort_keys=True)` becomes `dumpsSorted`;
`hashlib.md5(...).hexdigest()` becomes a full MD5 implementation over the
UTF-8 bytes of the input; the solved-challenges directory becomes an
association list from hash strings to file states; the Gemini gateway and
the Docker execution sandbox (external I/O) become oracle functions passed
as parameters; `solve_challenge_core` becomes a recursive function over the
remaining attempt budget that also counts gateway and sandbox invocations.
-/

set_option maxHeartbeats 1000000

/-- JSON values as produced by Python's `json` module on challenge payloads.
Numbers are modelled as integers (test-case payloads in this repository use
integral numbers); object member order is kept, since `sort_keys=True`
serialization is exactly about reordering it. -/
inductive JVal where
  | null : JVal
  | bool (b : Bool) : JVal
  | num (n : Int) : JVal
  | str (s : String) : JVal
  | arr (l : List JVal) : JVal
  | obj (l : List (String × JVal)) : JVal

mutual
/-- Structural boolean equality on `JVal` (used to build `DecidableEq`). -/
def jbeq : JVal → JVal → Bool
  | .null, .null => true
  | .bool a, .bool b => a == b
  | .num a, .num b => a == b
  | .str a, .str b => a == b
  | .arr a, .arr b => jbeqList a b
  | .obj a, .obj b => jbeqEntries a b
  | _, _ => false

def jbeqList : List JVal → List JVal → Bool
  | [], [] => true
  | a :: as, b :: bs => jbeq a b && jbeqList as bs
  | _, _ => false

def jbeqEntries : List (String × JVal) → List (String × JVal) → Bool
  | [], [] => true
  | (k1, v1) :: as, (k2, v2) :: bs => k1 == k2 && jbeq v1 v2 && jbeqEntries as bs
  | _, _ => false
end

instance : DecidableEq JVal := fun a b =>
  decidable_of_iff (jbeq a b = true) (by
    have H : ∀ n : Nat,
        (∀ a b : JVal, sizeOf a ≤ n → (jbeq a b = true ↔ a = b)) ∧
        (∀ l1 l2 : List JVal, sizeOf l1 ≤ n → (jbeqList l1 l2 = true ↔ l1 = l2)) ∧
        (∀ e1 e2 : List (String × JVal), sizeOf e1 ≤ n →
          (jbeqEntries e1 e2 = true ↔ e1 = e2)) := by
      intro n
      induction n using Nat.strong_induction_on with
      | _ n ih =>
        refine ⟨?_, ?_, ?_⟩
        · intro a b hn
          cases a <;> cases b <;>
            simp_all [jbeq] <;>
            first
            | (rename_i l1 l2
               cases n with
               | zero => simp at hn
               | succ m => exact (ih m (by omega)).2.1 l1 l2 (by omega))
            | (rename_i l1 l2
               cases n with
               | zero => simp at hn
               | succ m => exact (ih m (by omega)).2.2 l1 l2 (by omega))
        · intro l1 l2 hn
          cases l1 <;> cases l2 <;> simp_all [jbeqList]
          rename_i v1 t1 v2 t2
          cases n with
          | zero => simp at hn
          | succ m =>
            have h1 := (ih m (by omega)).1 v1 v2 (by omega)
            have h2 := (ih m (by omega)).2.1 t1 t2 (by omega)
            rw [h1, h2]
        · intro e1 e2 hn
          cases e1 <;> cases e2 <;> simp_all [jbeqEntries]
          rename_i p1 t1 p2 t2
          cases p1 with
          | mk k1 v1 =>
            cases p2 with
            | mk k2 v2 =>
              cases n with
              | zero => simp at hn
              | succ m =>
                have h1 := (ih m (by omega)).1 v1 v2 (by simp at hn ⊢; omega)
                have h2 := (ih m (by omega)).2.2 t1 t2 (by simp at hn ⊢; omega)
                simp [jbeqEntries, h1, h2, Prod.ext_iff, beq_iff_eq]
                try tauto
    exact (H (sizeOf a)).1 a b le_rfl)

/-- Stable insertion of an object member into a key-sorted member list,
placing the new member before members with an equal or larger key.  Used to
model the `sorted(dict.items())` step of `json.dumps(..., sort_keys=True)`
(dictionary keys coming from JSON are unique, so only the key matters). -/
def insertByKey (p : String × JVal) : List (String × JVal) → List (String × JVal)
  | [] => [p]
  | q :: t => if q.1 < p.1 then q :: insertByKey p t else p :: q :: t

/-- Key-sort of an object member list (stable, by key). -/
def sortByKey : List (String × JVal) → List (String × JVal)
  | [] => []
  | p :: t => insertByKey p (sortByKey t)

mutual
/-- Canonical form of a JSON value: every object member list is recursively
key-sorted.  `json.dumps(v, sort_keys=True)` serializes exactly `canon v`. -/
def canon : JVal → JVal
  | .null => .null
  | .bool b => .bool b
  | .num n => .num n
  | .str s => .str s
  | .arr l => .arr (canonList l)
  | .obj l => .obj (sortByKey (canonEntries l))

def canonList : List JVal → List JVal
  | [] => []
  | v :: t => canon v :: canonList t

def canonEntries : List (String × JVal) → List (String × JVal)
  | [] => []
  | (k, v) :: t => (k, canon v) :: canonEntries t
end

/-- Decimal digit characters of a natural number, most significant first
(Python's `repr` of a nonnegative int; `0` prints as `"0"`). -/
def natChars (m : Nat) : List Char :=
  if m = 0 then ['0'] else ((Nat.digits 10 m).map Nat.digitChar).reverse

/-- Decimal representation of an integer (Python `repr` of an int). -/
def intChars (n : Int) : List Char :=
  if n < 0 then '-' :: natChars n.natAbs else natChars n.natAbs

/-- Four lowercase hex digits of a value below 2^16 (CPython's
`'\u{0:04x}'` formatting used by `json.dumps` with `ensure_ascii=True`). -/
def hex4 (n : Nat) : List Char :=
  [Nat.digitChar (n / 4096 % 16), Nat.digitChar (n / 256 % 16),
   Nat.digitChar (n / 16 % 16), Nat.digitChar (n % 16)]

/-- JSON escape of one character, following CPython's `json.encoder`
ASCII mode: named two-character escapes, printable ASCII kept verbatim,
everything else as `\uXXXX` (with a surrogate pair above the BMP). -/
def escChar (c : Char) : List Char :=
  if c = '"' then ['\\', '"']
  else if c = '\\' then ['\\', '\\']
  else if c = '\n' then ['\\', 'n']
  else if c = '\r' then ['\\', 'r']
  else if c = '\t' then ['\\', 't']
  else if c.toNat = 8 then ['\\', 'b']
  else if c.toNat = 12 then ['\\', 'f']
  else if 32 ≤ c.toNat ∧ c.toNat ≤ 126 then [c]
  else if c.toNat < 65536 then '\\' :: 'u' :: hex4 c.toNat
  else
    ('\\' :: 'u' :: hex4 (55296 + (c.toNat - 65536) / 1024)) ++
    ('\\' :: 'u' :: hex4 (56320 + (c.toNat - 65536) % 1024))

/-- JSON escape of a character sequence. -/
def escL : List Char → List Char
  | [] => []
  | c :: t => escChar c ++ escL t

/-- JSON serialization of a string: a double-quoted escaped body. -/
def strChars (s : String) : List Char := '"' :: (escL s.data ++ ['"'])

def lbrace : Char := Char.ofNat 123

def rbrace : Char := Char.ofNat 125

mutual
/-- Serialization of a JSON value with `json.dumps` default separators
`", "` and `": "`, in the member order of the value itself (apply it to
`canon v` to get `json.dumps(v, sort_keys=True)`). -/
def ser : JVal → List Char
  | .null => 'n' :: ['u', 'l', 'l']
  | .bool true => 't' :: ['r', 'u', 'e']
  | .bool false => 'f' :: ['a', 'l', 's', 'e']
  | .num n => intChars n
  | .str s => strChars s
  | .arr l => '[' :: (serItems l ++ [']'])
  | .obj l => lbrace :: (serEntries l ++ [rbrace])

def serItems : List JVal → List Char
  | [] => []
  | v :: t => ser v ++ serItemsTail t

def serItemsTail : List JVal → List Char
  | [] => []
  | v :: t => ',' :: ' ' :: (ser v ++ serItemsTail t)

def serEntries : List (String × JVal) → List Char
  | [] => []
  | (k, v) :: t => (strChars k ++ ':' :: ' ' :: ser v) ++ serEntriesTail t

def serEntriesTail : List (String × JVal) → List Char
  | [] => []
  | (k, v) :: t => ',' :: ' ' :: ((strChars k ++ ':' :: ' ' :: ser v) ++ serEntriesTail t)
end

/-- Model of `json.dumps(v, sort_keys=True)` (line 122 of agent_core.py). -/
def dumpsSorted (v : JVal) : String := String.mk (ser (canon v))

/-- The pre-hash string `challenge_description + json.dumps(test_cases,
sort_keys=True) + "python"` of `get_challenge_hash`. -/
def challenge_str (challenge_description : String) (test_cases : JVal) : String :=
  challenge_description ++ dumpsSorted test_cases ++ "python"

/-- UTF-8 encoding of one character (Python `str.encode('utf-8')`). -/
def utf8Char (c : Char) : List Nat :=
  let n := c.toNat
  if n < 128 then [n]
  else if n < 2048 then [192 + n / 64, 128 + n % 64]
  else if n < 65536 then [224 + n / 4096, 128 + n / 64 % 64, 128 + n % 64]
  else [240 + n / 262144, 128 + n / 4096 % 64, 128 + n / 64 % 64, 128 + n % 64]

/-- UTF-8 encoding of a string as a byte list. -/
def utf8Bytes (s : String) : List Nat :=
  s.data.foldr (fun c acc => utf8Char c ++ acc) []

/-- Little-endian byte decomposition (k bytes) of a natural number. -/
def leBytes (k n : Nat) : List Nat := (List.range k).map (fun i => n / 256 ^ i % 256)

/-- MD5 round constants (RFC 1321). -/
def md5K : List Nat :=
  [0xd76aa478, 0xe8c7b756, 0x242070db, 0xc1bdceee, 0xf57c0faf, 0x4787c62a,
   0xa8304613, 0xfd469501, 0x698098d8, 0x8b44f7af, 0xffff5bb1, 0x895cd7be,
   0x6b901122, 0xfd987193, 0xa679438e, 0x49b40821, 0xf61e2562, 0xc040b340,
   0x265e5a51, 0xe9b6c7aa, 0xd62f105d, 0x02441453, 0xd8a1e681, 0xe7d3fbc8,
   0x21e1cde6, 0xc33707d6, 0xf4d50d87, 0x455a14ed, 0xa9e3e905, 0xfcefa3f8,
   0x676f02d9, 0x8d2a4c8a, 0xfffa3942, 0x8771f681, 0x6d9d6122, 0xfde5380c,
   0xa4beea44, 0x4bdecfa9, 0xf6bb4b60, 0xbebfbc70, 0x289b7ec6, 0xeaa127fa,
   0xd4ef3085, 0x04881d05, 0xd9d4d039, 0xe6db99e5, 0x1fa27cf8, 0xc4ac5665,
   0xf4292244, 0x432aff97, 0xab9423a7, 0xfc93a039, 0x655b59c3, 0x8f0ccc92,
   0xffeff47d, 0x85845dd1, 0x6fa87e4f, 0xfe2ce6e0, 0xa3014314, 0x4e0811a1,
   0xf7537e82, 0xbd3af235, 0x2ad7d2bb, 0xeb86d391]

/-- MD5 per-step left-rotation amounts (RFC 1321). -/
def md5S : List Nat :=
  [7, 12, 17, 22, 7, 12, 17, 22, 7, 12, 17, 22, 7, 12, 17, 22,
   5, 9, 14, 20, 5, 9, 14, 20, 5, 9, 14, 20, 5, 9, 14, 20,
   4, 11, 16, 23, 4, 11, 16, 23, 4, 11, 16, 23, 4, 11, 16, 23,
   6, 10, 15, 21, 6, 10, 15, 21, 6, 10, 15, 21, 6, 10, 15, 21]

/-- Bitwise complement within 32 bits. -/
def bnot32 (x : Nat) : Nat := 4294967295 - x % 4294967296

/-- Left rotation of a 32-bit word. -/
def rotl32 (x s : Nat) : Nat :=
  ((x % 4294967296) * 2 ^ s + (x % 4294967296) / 2 ^ (32 - s)) % 4294967296

/-- MD5 mixing function for step `i`. -/
def md5F (i b c d : Nat) : Nat :=
  if i < 16 then (b &&& c) ||| (bnot32 b &&& d)
  else if i < 32 then (d &&& b) ||| (bnot32 d &&& c)
  else if i < 48 then (b ^^^ c) ^^^ d
  else c ^^^ (b ||| bnot32 d)

/-- MD5 message-word index for step `i`. -/
def md5G (i : Nat) : Nat :=
  if i < 16 then i
  else if i < 32 then (5 * i + 1) % 16
  else if i < 48 then (3 * i + 5) % 16
  else 7 * i % 16

/-- MD5 padding: a 0x80 byte, zeros to 56 mod 64, then the bit length
as 8 little-endian bytes. -/
def md5Pad (m : List Nat) : List Nat :=
  m ++ 128 :: List.replicate ((119 - m.length % 64) % 64) 0 ++
    leBytes 8 (m.length * 8 % 18446744073709551616)

/-- The sixteen 32-bit little-endian words of one 64-byte chunk. -/
def md5Words (chunk : List Nat) : List Nat :=
  (List.range 16).map (fun j =>
    chunk.getD (4 * j) 0 + 256 * chunk.getD (4 * j + 1) 0 +
    65536 * chunk.getD (4 * j + 2) 0 + 16777216 * chunk.getD (4 * j + 3) 0)

/-- One MD5 step on the state (a, b, c, d). -/
def md5Step (M : List Nat) (st : Nat × Nat × Nat × Nat) (i : Nat) : Nat × Nat × Nat × Nat :=
  let f := (md5F i st.2.1 st.2.2.1 st.2.2.2 + st.1 + md5K.getD i 0 +
            M.getD (md5G i) 0) % 4294967296
  (st.2.2.2, (st.2.1 + rotl32 f (md5S.getD i 0)) % 4294967296, st.2.1, st.2.2.1)

/-- Processing of one 64-byte chunk. -/
def md5Chunk (st : Nat × Nat × Nat × Nat) (chunk : List Nat) : Nat × Nat × Nat × Nat :=
  let r := (List.range 64).foldl (md5Step (md5Words chunk)) st
  ((st.1 + r.1) % 4294967296, (st.2.1 + r.2.1) % 4294967296,
   (st.2.2.1 + r.2.2.1) % 4294967296, (st.2.2.2 + r.2.2.2) % 4294967296)

/-- Split a byte list into 64-byte chunks. -/
def toChunks (l : List Nat) : List (List Nat) :=
  if h : l = [] then [] else l.take 64 :: toChunks (l.drop 64)
termination_by l.length
decreasing_by
  simp only [List.length_drop]
  have : 0 < l.length := List.length_pos.mpr h
  omega

/-- MD5 digest (16 bytes) of a byte list. -/
def md5Bytes (m : List Nat) : List Nat :=
  let r := (toChunks (md5Pad m)).foldl md5Chunk (1732584193, 4023233417, 2562383102, 271733878)
  leBytes 4 r.1 ++ leBytes 4 r.2.1 ++ leBytes 4 r.2.2.1 ++ leBytes 4 r.2.2.2

/-- Two lowercase hex digits of a byte. -/
def hexByte (b : Nat) : List Char := [Nat.digitChar (b / 16 % 16), Nat.digitChar (b % 16)]

/-- Model of `hashlib.md5(s.encode('utf-8')).hexdigest()`. -/
def md5Hex (s : String) : String :=
  String.mk ((md5Bytes (utf8Bytes s)).foldr (fun b acc => hexByte b ++ acc) [])

/-- Model of `get_challenge_hash` (agent_core.py lines 120-123). -/
def get_challenge_hash (challenge_description : String) (test_cases : JVal) : String :=
  md5Hex (challenge_str challenge_description test_cases)


instance : Inhabited JVal := ⟨.null⟩

/-- Python `repr` escaping of one character inside a string literal quoted
by `quote`. -/
def pyReprChar (quote c : Char) : List Char :=
  if c = '\\' then ['\\', '\\']
  else if c = quote then ['\\', quote]
  else if c = '\n' then ['\\', 'n']
  else if c = '\r' then ['\\', 'r']
  else if c = '\t' then ['\\', 't']
  else if c.toNat < 32 ∨ c.toNat = 127 then
    ['\\', 'x', Nat.digitChar (c.toNat / 16 % 16), Nat.digitChar (c.toNat % 16)]
  else [c]

/-- Python `repr` of a string: single-quoted unless the string contains a
single quote and no double quote. -/
def pyReprStr (s : String) : List Char :=
  let sq := Char.ofNat 39
  let q := if s.data.contains sq && !(s.data.contains '"') then '"' else sq
  q :: ((s.data.foldr (fun c acc => pyReprChar q c ++ acc) []) ++ [q])

mutual
/-- Python `repr` of a JSON-derived value (`None`/`True`/`False`, decimal
ints, quoted strings, bracketed lists, braced dicts), as produced when such
a value is interpolated inside a larger f-string. -/
def pyRepr : JVal → List Char
  | .null => 'N' :: ['o', 'n', 'e']
  | .bool true => 'T' :: ['r', 'u', 'e']
  | .bool false => 'F' :: ['a', 'l', 's', 'e']
  | .num n => intChars n
  | .str s => pyReprStr s
  | .arr l => '[' :: (pyReprItems l ++ [']'])
  | .obj l => lbrace :: (pyReprEntries l ++ [rbrace])

def pyReprItems : List JVal → List Char
  | [] => []
  | v :: t => pyRepr v ++ pyReprItemsTail t

def pyReprItemsTail : List JVal → List Char
  | [] => []
  | v :: t => ',' :: ' ' :: (pyRepr v ++ pyReprItemsTail t)

def pyReprEntries : List (String × JVal) → List Char
  | [] => []
  | (k, v) :: t => (pyReprStr k ++ ':' :: ' ' :: pyRepr v) ++ pyReprEntriesTail t

def pyReprEntriesTail : List (String × JVal) → List Char
  | [] => []
  | (k, v) :: t => ',' :: ' ' :: ((pyReprStr k ++ ':' :: ' ' :: pyRepr v) ++ pyReprEntriesTail t)
end

/-- Python `str()` of a JSON-derived value (what an f-string placeholder
prints): a top-level string prints unquoted, everything else as `pyRepr`. -/
def pyStr : JVal → String
  | .str s => s
  | v => String.mk (pyRepr v)

def indentN (d : Nat) : List Char := List.replicate (2 * d) ' '

mutual
/-- Serialization of a JSON value with `json.dumps(v, indent=2)` (used in
the first-attempt prompt; no key sorting). -/
def serInd : Nat → JVal → List Char
  | _, .null => 'n' :: ['u', 'l', 'l']
  | _, .bool true => 't' :: ['r', 'u', 'e']
  | _, .bool false => 'f' :: ['a', 'l', 's', 'e']
  | _, .num n => intChars n
  | _, .str s => strChars s
  | _, .arr [] => ['[', ']']
  | d, .arr (v :: t) =>
      '[' :: '\n' :: (indentN (d + 1) ++ serInd (d + 1) v ++ serIndItems (d + 1) t ++
        '\n' :: (indentN d ++ [']']))
  | _, .obj [] => [lbrace, rbrace]
  | d, .obj ((k, v) :: t) =>
      lbrace :: '\n' :: (indentN (d + 1) ++ (strChars k ++ ':' :: ' ' :: serInd (d + 1) v) ++
        serIndEntries (d + 1) t ++ '\n' :: (indentN d ++ [rbrace]))

def serIndItems : Nat → List JVal → List Char
  | _, [] => []
  | d, v :: t => ',' :: '\n' :: (indentN d ++ serInd d v ++ serIndItems d t)

def serIndEntries : Nat → List (String × JVal) → List Char
  | _, [] => []
  | d, (k, v) :: t =>
      ',' :: '\n' :: (indentN d ++ (strChars k ++ ':' :: ' ' :: serInd d v) ++ serIndEntries d t)
end

/-- Model of `json.dumps(test_cases, indent=2)`. -/
def dumpsIndent2 (v : JVal) : String := String.mk (serInd 0 v)

/-- One per-test entry of an execution report (runner JSON). -/
structure TRes where
  test_number : Nat
  input : JVal
  expected_output : JVal
  actual_output : JVal
  passed : Bool
  error : Option String
deriving DecidableEq

/-- An execution report as returned by `CodeExecutor.execute_code`. -/
structure Report where
  success : Bool
  output : String
  error_message : Option String
  exception_type : Option String
  test_results : List TRes
deriving DecidableEq

instance : Inhabited Report := ⟨⟨false, "", none, none, []⟩⟩

/-- Truthiness of the `error` field in Python (`if result["error"]:`):
false for `None` and for the empty string. -/
def errTruthy : Option String → Bool
  | none => false
  | some s => s != ""

/-- The detail lines appended for one failing test. -/
def detailLines (r : TRes) : List String :=
  ["Test " ++ String.mk (natChars r.test_number) ++ " FAILED:",
   "  Input: " ++ pyStr r.input,
   "  Expected: " ++ pyStr r.expected_output ++ ", Actual: " ++ pyStr r.actual_output] ++
  (if errTruthy r.error then ["  Error: " ++ (r.error.getD "")] else [])

/-- The enumerated loop over failing tests in `format_test_results_for_llm`
(lines 106-117 of agent_core.py): index `i` against the list of failing
tests of total length `total`; after `m` detailed renderings it appends one
summary line and breaks. -/
def formatLoop (m : Nat) : Nat → Nat → List TRes → List String
  | _, _, [] => []
  | i, total, r :: rest =>
      if i < m then detailLines r ++ formatLoop m (i + 1) total rest
      else if total - i > 0 then
        ["... " ++ String.mk (natChars (total - i)) ++ " more tests failed."]
      else formatLoop m (i + 1) total rest

/-- Model of `format_test_results_for_llm` (agent_core.py lines 95-118);
`m` is `max_detailed_failures` (the callers use the default 2). -/
def format_test_results_for_llm (test_results : List TRes) (m : Nat) : String :=
  let failing := test_results.filter (fun r => r.passed == false)
  if failing.isEmpty then "All provided tests passed."
  else String.intercalate "\n" (formatLoop m 0 failing.length failing)

/-- Boolean prefix test on character lists. -/
def isPre : List Char → List Char → Bool
  | [], _ => true
  | _ :: _, [] => false
  | p :: ps, c :: cs => p == c && isPre ps cs

/-- Index of the first occurrence of `pat` in a character list. -/
def findPat (pat : List Char) : List Char → Option Nat
  | [] => if isPre pat [] then some 0 else none
  | c :: t => if isPre pat (c :: t) then some 0 else (findPat pat t).map (· + 1)

/-- Python `str.strip()` whitespace (ASCII subset). -/
def pySpace (c : Char) : Bool :=
  c.toNat = 32 || c.toNat = 9 || c.toNat = 10 || c.toNat = 13 || c.toNat = 11 || c.toNat = 12

/-- Python `str.strip()`. -/
def pyStrip (s : String) : String :=
  String.mk (((s.data.dropWhile pySpace).reverse.dropWhile pySpace).reverse)

/-- Model of `extract_python_code` (agent_core.py lines 85-93): the first
match of the regex `«triple-backtick»python\n(.*?)«triple-backtick»` with
DOTALL, i.e. the text between the first fenced-python opener and the first
closing fence after it, stripped. -/
def extract_python_code (response_text : String) : Option String :=
  let cs := response_text.data
  match findPat ("```python\n".data) cs with
  | none => none
  | some i =>
      let rest := cs.drop (i + 10)
      match findPat ("```".data) rest with
      | none => none
      | some j => some (pyStrip (String.mk (rest.take j)))

/-- One conversational turn ({"role": ..., "parts": [{"text": ...}]}). -/
structure Msg where
  role : String
  text : String
deriving DecidableEq

/-- Append to a `deque(maxlen=3)`: keep the last three turns. -/
def push3 (hist : List Msg) (m : Msg) : List Msg :=
  let l := hist ++ [m]
  l.drop (l.length - 3)

def take100 (s : String) : String := String.mk (s.data.take 100)

/-- The attempt-1 prompt of `solve_challenge_core` (lines 189-198). -/
def initialPrompt (challenge_description : String) (test_cases : JVal) : String :=
  "You are an AI programming assistant. Your task is to write a Python function.\n" ++
  "Problem: " ++ challenge_description ++ "\n" ++
  "Write a Python function named `solve` that correctly implements the solution. " ++
  "Ensure the function signature (including parameter types and return type) matches the problem's requirements. " ++
  "Provide minimal and only necessary comments. Do NOT include extensive docstrings or block comments.\n" ++
  "Here are example test cases with their inputs and expected outputs to guide you:\n" ++
  dumpsIndent2 test_cases ++ "\n" ++
  "Provide ONLY the Python code block (including imports if any) within a python markdown block. Do NOT include any conversational text before or after the code block."

/-- The repair prompt of `solve_challenge_core` (lines 200-210). -/
def repairPrompt (challenge_description lastCode : String) (lastReport : Report) : String :=
  "Your previous Python code for the problem: '" ++ take100 challenge_description ++ "...' failed some tests.\n" ++
  "Here is the failed code:\n" ++
  "```python\n" ++ lastCode ++ "\n```\n" ++
  "The following tests failed (or errors occurred):\n" ++
  format_test_results_for_llm lastReport.test_results 2 ++ "\n" ++
  "Carefully review the problem, the failed code, and the test results. Identify the bugs and provide the corrected Python function `solve`. " ++
  "Provide minimal and only necessary comments. Do NOT include extensive docstrings or block comments.\n" ++
  "Provide ONLY the corrected Python code block (including imports if any) within a python markdown block. Do NOT include any conversational text before or after the code block."

/-- The prompt built at the top of loop iteration `attempt`. -/
def promptFor (attempt : Nat) (desc : String) (tc : JVal) (lastCode : String)
    (lastReport : Report) : String :=
  if attempt = 1 then initialPrompt desc tc else repairPrompt desc lastCode lastReport

/-- A record in the solved-challenges directory (`save_solved_challenge`). -/
structure SolvedData where
  challenge_description : String
  test_cases : JVal
  final_code : String
  attempts_taken : Nat
  solved_timestamp : String
  language : String
deriving DecidableEq

/-- State of the file stored for one fingerprint: a readable record, a file
whose content fails `json.load` (raises `json.JSONDecodeError`), or a file
the operating system cannot open/read (raises `OSError`). -/
inductive FileState where
  | ok (d : SolvedData)
  | corrupt
  | unreadable
deriving DecidableEq

/-- The `solved_challenges` directory: one file per fingerprint. -/
abbrev Store := List (String × FileState)

/-- Model of `load_solved_challenge` (agent_core.py lines 125-138): only
`json.JSONDecodeError` is caught and turned into a miss; an OS-level read
error propagates as an exception. -/
def load_solved_challenge (store : Store) (challenge_hash : String) :
    Except String (Option SolvedData) :=
  match store.lookup challenge_hash with
  | none => .ok none
  | some (.ok d) => .ok (some d)
  | some .corrupt => .ok none
  | some .unreadable => .error "OSError"

/-- Model of `save_solved_challenge` (agent_core.py lines 140-158): one
whole-record write to the file named by the fingerprint. -/
def save_solved_challenge (store : Store) (challenge_hash challenge_description : String)
    (test_cases : JVal) (final_code : String) (attempts_taken : Nat) (now : String) : Store :=
  (challenge_hash,
    .ok ⟨challenge_description, test_cases, final_code, attempts_taken, now, "python"⟩) :: store

/-- The `error_details` dictionary built on a failed execution (lines 253-258). -/
structure ErrorDetails where
  message : String
  error_message : Option String
  exception_type : Option String
  test_results : List TRes
deriving DecidableEq

/-- The result dictionary of `solve_challenge_core`, discriminated on its
`status` field. -/
inductive Outcome where
  | solved (final_code : String) (attempts_taken : Nat) (message : String)
  | failed (final_code : String) (attempts_taken : Nat) (error_details : ErrorDetails)
      (message : String)
  | error (message : String)
deriving DecidableEq

/-- The `status` field of a result dictionary. -/
def Outcome.status : Outcome → String
  | .solved _ _ _ => "solved"
  | .failed _ _ _ _ => "failed"
  | .error _ => "error"

def mkErrorDetails (r : Report) : ErrorDetails :=
  ⟨"Code failed tests.", r.error_message, r.exception_type, r.test_results⟩

/-- The attempt loop of `solve_challenge_core` (lines 184-274).  `gem`
models `call_gemini_api` after its internal retries (its returned text, or
`none` once its budget is exhausted); `exec` models
`CodeExecutor().execute_code`; `left` is the number of attempts still
allowed (`max_attempts - attempt + 1`); the two trailing counters count
gateway calls and sandbox executions. -/
def solveLoop (gem : List Msg → Option String) (exec : String → JVal → Report)
    (now desc : String) (tc : JVal) (challenge_hash : String) :
    Nat → Nat → List Msg → String → Report → Nat → Nat → Store →
    Outcome × Store × Nat × Nat
  | 0, _, _, _, _, g, s, store =>
      (.error "An unexpected state occurred in solve_challenge_core.", store, g, s)
  | left + 1, attempt, hist, lastCode, lastReport, g, s, store =>
      let hist1 := push3 hist ⟨"user", promptFor attempt desc tc lastCode lastReport⟩
      match gem hist1 with
      | none => (.error "Failed to get response from Gemini API.", store, g + 1, s)
      | some resp =>
          let hist2 := push3 hist1 ⟨"model", resp⟩
          match extract_python_code resp with
          | none =>
              (.error "No valid Python code block found in Gemini's response.", store, g + 1, s)
          | some code =>
              let report := exec code tc
              if report.success then
                (.solved code attempt "Challenge successfully solved.",
                 save_solved_challenge store challenge_hash desc tc code attempt now,
                 g + 1, s + 1)
              else if left = 0 then
                (.failed code attempt (mkErrorDetails report)
                   "Challenge could not be solved within max attempts.", store, g + 1, s + 1)
              else
                solveLoop gem exec now desc tc challenge_hash left (attempt + 1) hist2 code
                  report (g + 1) (s + 1) store

/-- Model of `solve_challenge_core` (agent_core.py lines 160-274).  The
result carries the outcome, the resulting solved-challenges store, and the
number of gateway calls and sandbox executions performed; a `.error` result
models an uncaught Python exception. -/
def solve_challenge_core (gem : List Msg → Option String) (exec : String → JVal → Report)
    (now : String) (store : Store) (challenge_description : String) (test_cases : JVal)
    (max_attempts : Nat) : Except String (Outcome × Store × Nat × Nat) :=
  let h := get_challenge_hash challenge_description test_cases
  match load_solved_challenge store h with
  | .error e => .error e
  | .ok (some d) =>
      .ok (.solved d.final_code d.attempts_taken "Challenge already solved, loaded from disk.",
           store, 0, 0)
  | .ok none =>
      .ok (solveLoop gem exec now challenge_description test_cases h max_attempts 1 [] ""
            default 0 0 store)

/-- A Python exception class relevant to `execute_code`'s handlers. -/
inductive PyExc where
  | fileNotFound (msg : String)
  | valueError (msg : String)
  | other (tyName msg : String)
deriving DecidableEq

/-- Behaviour of `_prepare_temp_directory` in one run: it succeeds, or it
raises before `os.makedirs` has created the directory, or after (e.g.
`shutil.copy` of the runner script failing, or a failing file write). -/
inductive PrepRes where
  | ok
  | raiseBeforeMkdir (e : PyExc)
  | raiseAfterMkdir (e : PyExc)
deriving DecidableEq

/-- Behaviour of the `subprocess.run` docker invocation: it raises, or it
completes with some stdout/stderr; `parsed` is the result of
`json.loads(stdout.strip())`, `none` when that raises `JSONDecodeError`. -/
inductive DockerRes where
  | raise (e : PyExc)
  | ran (stdout stderr : String) (parsed : Option Report)
deriving DecidableEq

/-- Environment oracle for one `execute_code` invocation. -/
structure ExecEnv where
  prep : PrepRes
  docker : DockerRes
deriving DecidableEq

/-- File-system effects of one `execute_code` invocation on its per-run
temporary directory, plus whether docker was invoked at all. -/
structure ExecFx where
  tempDirCreated : Bool
  tempDirRemoved : Bool
  dockerInvoked : Bool
deriving DecidableEq

/-- The report built by each `except` clause of `execute_code`
(executor.py lines 103-126), dispatching on the exception class. -/
def excReport : PyExc → Report
  | .fileNotFound _ =>
      ⟨false, "", some "Docker command not found. Is Docker installed and in your PATH?",
       some "DockerNotFound", []⟩
  | .valueError m => ⟨false, "", some m, some "ValueError", []⟩
  | .other ty m =>
      ⟨false, "", some ("An unexpected error occurred during Docker execution: " ++ ty ++ ": " ++ m),
       some ty, []⟩

/-- Model of `CodeExecutor.execute_code` (executor.py lines 50-129)
together with its temporary-directory effects.  The `finally` block removes
the directory only when the local `temp_dir` was assigned, i.e. only when
`_prepare_temp_directory` returned; a raise between `os.makedirs` and the
return leaves the directory behind. -/
def execute_code (env : ExecEnv) (generated_code : String) (test_cases : JVal)
    (language : String) : Report × ExecFx :=
  if language ≠ "python" then
    (⟨false, "",
      some ("Only 'python' language is supported in this version. Got '" ++ language ++ "'."),
      some "UnsupportedLanguage", []⟩, ⟨false, false, false⟩)
  else
    match env.prep with
    | .raiseBeforeMkdir e => (excReport e, ⟨false, false, false⟩)
    | .raiseAfterMkdir e => (excReport e, ⟨true, false, false⟩)
    | .ok =>
        match env.docker with
        | .raise e => (excReport e, ⟨true, true, true⟩)
        | .ran out err parsed =>
            match parsed with
            | some r => (r, ⟨true, true, true⟩)
            | none =>
                (⟨false, pyStrip out,
                  some ("Execution environment error (runner output was not valid JSON or stderr had issues): " ++
                    pyStrip err),
                  some "DockerExecutionError", []⟩, ⟨true, true, true⟩)

/-- An entry of the in-memory `ongoing_challenges` registry (app.py). -/
structure RegEntry where
  status : String
  description : String
  test_cases : JVal
  challenge_hash : String
  max_attempts : Nat
  result : Option Outcome
deriving DecidableEq

/-- The registry entry created by `submit_challenge` (app.py lines 74-82). -/
def submitEntry (desc : String) (tc : JVal) (maxA : Nat) : RegEntry :=
  ⟨"pending", desc, tc, get_challenge_hash desc tc, maxA, none⟩

/-- How the solver task ends: `solve_challenge_core` returned a result
dictionary, or raised an exception caught by `run_solver_task`. -/
inductive TaskEnd where
  | finished (r : Outcome)
  | raised (msg : String)
deriving DecidableEq

/-- The mutation `run_solver_task` performs on its registry entry
(app.py lines 84-94). -/
def applyTask (e : RegEntry) : TaskEnd → RegEntry
  | .finished r => { e with result := some r, status := r.status }
  | .raised m => { e with status := "error", result := some (.error m) }

/-- Head constraint used by the serializer-unambiguity lemma: the
remainder must not start with a decimal digit (it may be empty). -/
def stopOk : List Char → Prop
  | [] => True
  | c :: _ => c.isDigit = false

/-- Value of a byte list read as a base-256 little-endian numeral. -/
def packBytes (l : List Nat) : Nat := l.foldr (fun b acc => b % 256 + 256 * acc) 0

/-- Inverse of `Nat.digitChar` on hex digits. -/
def hexv (c : Char) : Nat := if c.toNat ≤ 57 then c.toNat - 48 else c.toNat - 87

/-- Value of four hex digit characters. -/
def hexVal4 (a b c d : Char) : Nat := 4096 * hexv a + 256 * hexv b + 16 * hexv c + hexv d

/-- Inverse of the named two-character JSON escapes. -/
def unescape (x : Char) : Option Nat :=
  if x = '"' then some 34
  else if x = '\\' then some 92
  else if x = 'n' then some 10
  else if x = 'r' then some 13
  else if x = 't' then some 9
  else if x = 'b' then some 8
  else if x = 'f' then some 12
  else none

/-- Decoder of one JSON character escape unit (the inverse of `escChar`,
used to prove `escL` unambiguous). -/
def escDec : List Char → Option (Nat × List Char)
  | [] => none
  | c :: rest =>
    if c = '\\' then
      match rest with
      | [] => none
      | x :: rest2 =>
        if x = 'u' then
          match rest2 with
          | h1 :: h2 :: h3 :: h4 :: rest3 =>
            if 55296 ≤ hexVal4 h1 h2 h3 h4 ∧ hexVal4 h1 h2 h3 h4 < 56320 then
              match rest3 with
              | b1 :: u1 :: g1 :: g2 :: g3 :: g4 :: rest4 =>
                if b1 = '\\' ∧ u1 = 'u' then
                  some (65536 + (hexVal4 h1 h2 h3 h4 - 55296) * 1024 +
                    (hexVal4 g1 g2 g3 g4 - 56320), rest4)
                else none
              | _ => none
            else some (hexVal4 h1 h2 h3 h4, rest3)
          | _ => none
        else (unescape x).map (fun n => (n, rest2))
    else some (c.toNat, rest)

/-- Classification of a character as the possible first character of a
serialized JSON value. -/
def serHeadClass (c : Char) : Nat :=
  if c = 'n' then 0 else if c = 't' ∨ c = 'f' then 1
  else if c = '"' then 2 else if c = '[' then 3 else if c = lbrace then 4
  else if c.isDigit ∨ c = '-' then 5 else 6

/-- Constructor class of a JSON value, aligned with `serHeadClass`. -/
def jclass : JVal → Nat
  | .null => 0
  | .bool _ => 1
  | .str _ => 2
  | .arr _ => 3
  | .obj _ => 4
  | .num _ => 5

/-! ### General lemmas about the solve loop and cache -/

theorem load_ok_some_iff (store : Store) (h : String) (d : SolvedData) :
    load_solved_challenge store h = .ok (some d) ↔ store.lookup h = some (.ok d) := by
  unfold load_solved_challenge
  cases hl : store.lookup h with
  | none => simp
  | some fs => cases fs <;> simp

theorem solveLoop_sandbox_bound (gem : List Msg → Option String) (exec : String → JVal → Report)
    (now desc : String) (tc : JVal) (h : String) :
    ∀ left attempt hist lc lr g s store,
      (solveLoop gem exec now desc tc h left attempt hist lc lr g s store).2.2.2 ≤ s + left := by
  intro left
  induction left with
  | zero => intro attempt hist lc lr g s store; simp [solveLoop]
  | succ n ih =>
    intro attempt hist lc lr g s store
    simp only [solveLoop]
    split
    · simp
    · split
      · simp
      · split
        · simp
        · split
          · simp
          · exact le_trans (ih _ _ _ _ _ _ _) (by omega)

theorem solveLoop_status (gem : List Msg → Option String) (exec : String → JVal → Report)
    (now desc : String) (tc : JVal) (h : String) :
    ∀ left attempt hist lc lr g s store,
      (solveLoop gem exec now desc tc h left attempt hist lc lr g s store).1.status = "solved" ∨
      (solveLoop gem exec now desc tc h left attempt hist lc lr g s store).1.status = "failed" ∨
      (solveLoop gem exec now desc tc h left attempt hist lc lr g s store).1.status = "error" := by
  intro left
  induction left with
  | zero => intro attempt hist lc lr g s store; simp [solveLoop, Outcome.status]
  | succ n ih =>
    intro attempt hist lc lr g s store
    simp only [solveLoop]
    split
    · simp [Outcome.status]
    · split
      · simp [Outcome.status]
      · split
        · simp [Outcome.status]
        · split
          · simp [Outcome.status]
          · exact ih _ _ _ _ _ _ _

theorem solveLoop_store_spec (gem : List Msg → Option String) (exec : String → JVal → Report)
    (now desc : String) (tc : JVal) (h : String) :
    ∀ left attempt hist lc lr g s store,
      (∀ c a m, (solveLoop gem exec now desc tc h left attempt hist lc lr g s store).1 =
          .solved c a m →
        m = "Challenge successfully solved." ∧
        (solveLoop gem exec now desc tc h left attempt hist lc lr g s store).2.1 =
          save_solved_challenge store h desc tc c a now) ∧
      ((solveLoop gem exec now desc tc h left attempt hist lc lr g s store).1.status ≠ "solved" →
        (solveLoop gem exec now desc tc h left attempt hist lc lr g s store).2.1 = store) := by
  intro left
  induction left with
  | zero => intro attempt hist lc lr g s store; simp [solveLoop, Outcome.status]
  | succ n ih =>
    intro attempt hist lc lr g s store
    simp only [solveLoop]
    split
    · simp [Outcome.status]
    · split
      · simp [Outcome.status]
      · split
        · constructor
          · intro c a m hm
            simp only [Prod.fst] at hm
            injection hm with hc ha hmm
            subst hc; subst ha
            exact ⟨hmm.symm, rfl⟩
          · intro hst
            simp [Outcome.status] at hst
        · split
          · constructor
            · intro c a m hm
              simp only [Prod.fst] at hm
              exact absurd hm (by simp)
            · intro _; rfl
          · exact ih _ _ _ _ _ _ _

theorem solve_status (gem : List Msg → Option String) (exec : String → JVal → Report)
    (now : String) (store : Store) (desc : String) (tc : JVal) (maxA : Nat) (r : Outcome)
    (store2 : Store) (g s : Nat) :
    solve_challenge_core gem exec now store desc tc maxA = .ok (r, store2, g, s) →
    r.status = "solved" ∨ r.status = "failed" ∨ r.status = "error" := by
  simp only [solve_challenge_core]
  cases hload : load_solved_challenge store (get_challenge_hash desc tc) with
  | error e => intro hr; exact absurd hr (by simp)
  | ok o =>
    cases o with
    | some d =>
      intro hr
      simp only [Except.ok.injEq, Prod.mk.injEq] at hr
      have : r = .solved d.final_code d.attempts_taken
          "Challenge already solved, loaded from disk." := hr.1.symm
      simp [this, Outcome.status]
    | none =>
      intro hr
      simp only [Except.ok.injEq] at hr
      have h1 : r = (solveLoop gem exec now desc tc (get_challenge_hash desc tc) maxA 1 [] ""
          default 0 0 store).1 := by rw [hr]
      rw [h1]
      exact solveLoop_status gem exec now desc tc (get_challenge_hash desc tc) maxA 1 [] ""
        default 0 0 store

theorem solve_solved_lookup (gem : List Msg → Option String) (exec : String → JVal → Report)
    (now : String) (store : Store) (desc : String) (tc : JVal) (maxA : Nat) (c : String)
    (a : Nat) (m : String) (store2 : Store) (g s : Nat) :
    solve_challenge_core gem exec now store desc tc maxA = .ok (.solved c a m, store2, g, s) →
    ∃ d : SolvedData, store2.lookup (get_challenge_hash desc tc) = some (.ok d) ∧
      d.final_code = c ∧ d.attempts_taken = a := by
  simp only [solve_challenge_core]
  cases hload : load_solved_challenge store (get_challenge_hash desc tc) with
  | error e => intro hr; exact absurd hr (by simp)
  | ok o =>
    cases o with
    | some d =>
      intro hr
      simp only [Except.ok.injEq, Prod.mk.injEq, Outcome.solved.injEq] at hr
      obtain ⟨⟨hc, ha, _⟩, hst, _⟩ := hr
      refine ⟨d, ?_, hc, ha⟩
      rw [← hst]
      exact (load_ok_some_iff store (get_challenge_hash desc tc) d).mp hload
    | none =>
      intro hr
      simp only [Except.ok.injEq] at hr
      have h1 : (solveLoop gem exec now desc tc (get_challenge_hash desc tc) maxA 1 [] ""
          default 0 0 store).1 = .solved c a m := by rw [hr]
      obtain ⟨_, hst⟩ := (solveLoop_store_spec gem exec now desc tc (get_challenge_hash desc tc)
        maxA 1 [] "" default 0 0 store).1 c a m h1
      have hst2 : store2 = save_solved_challenge store (get_challenge_hash desc tc) desc tc c a
          now := by rw [← hst, hr]
      subst hst2
      exact ⟨⟨desc, tc, c, a, now, "python"⟩, by simp [save_solved_challenge, List.lookup],
        rfl, rfl⟩

/-! ### Claim theorems -/

/-- C1: a challenge whose fingerprint has a stored readable SolvedChallenge
is answered `solved` immediately from the cache, with the cached
`final_code` and `attempts_taken`, an unchanged store, and zero gateway and
sandbox invocations; consequently, after any solve call that returned
`solved`, a second call on the resulting store returns the same
`final_code` and `attempts_taken` doing no gateway or sandbox work,
whatever oracles it runs against. -/
theorem c1_cached_challenge_short_circuits :
    ∀ (gem gem2 : List Msg → Option String) (exec exec2 : String → JVal → Report)
      (now now2 : String) (store : Store) (desc : String) (tc : JVal) (maxA maxA2 : Nat)
      (d : SolvedData) (c : String) (a : Nat) (m : String) (store2 : Store) (g s : Nat),
      (store.lookup (get_challenge_hash desc tc) = some (.ok d) →
        solve_challenge_core gem exec now store desc tc maxA =
          .ok (.solved d.final_code d.attempts_taken
                 "Challenge already solved, loaded from disk.", store, 0, 0)) ∧
      (solve_challenge_core gem exec now store desc tc maxA = .ok (.solved c a m, store2, g, s) →
        solve_challenge_core gem2 exec2 now2 store2 desc tc maxA2 =
          .ok (.solved c a "Challenge already solved, loaded from disk.", store2, 0, 0)) := by
  intro gem gem2 exec exec2 now now2 store desc tc maxA maxA2 d c a m store2 g s
  constructor
  · intro hl
    simp [solve_challenge_core, load_solved_challenge, hl]
  · intro hr
    obtain ⟨e, hlk, hc, ha⟩ := solve_solved_lookup gem exec now store desc tc maxA c a m store2
      g s hr
    simp [solve_challenge_core, load_solved_challenge, hlk, hc, ha]

/-- C1 witness: with a concrete cached record, a solve call returns it with
zero gateway/sandbox work, and a second call after a solved first call
agrees. -/
theorem c1_cached_challenge_short_circuits_witness :
    ([(get_challenge_hash "add" JVal.null,
        FileState.ok ⟨"add", JVal.null, "def solve(): pass", 2, "t0", "python"⟩)] :
          Store).lookup (get_challenge_hash "add" JVal.null) =
        some (.ok ⟨"add", JVal.null, "def solve(): pass", 2, "t0", "python"⟩) ∧
    solve_challenge_core (fun _ => none) (fun _ _ => default) "t1"
        [(get_challenge_hash "add" JVal.null,
          FileState.ok ⟨"add", JVal.null, "def solve(): pass", 2, "t0", "python"⟩)]
        "add" JVal.null 5 =
      .ok (.solved "def solve(): pass" 2 "Challenge already solved, loaded from disk.",
           [(get_challenge_hash "add" JVal.null,
             FileState.ok ⟨"add", JVal.null, "def solve(): pass", 2, "t0", "python"⟩)], 0, 0) ∧
    solve_challenge_core (fun _ => some "x") (fun _ _ => default) "t2"
        [(get_challenge_hash "add" JVal.null,
          FileState.ok ⟨"add", JVal.null, "def solve(): pass", 2, "t0", "python"⟩)]
        "add" JVal.null 3 =
      .ok (.solved "def solve(): pass" 2 "Challenge already solved, loaded from disk.",
           [(get_challenge_hash "add" JVal.null,
             FileState.ok ⟨"add", JVal.null, "def solve(): pass", 2, "t0", "python"⟩)], 0, 0) := by
  have hl : ([(get_challenge_hash "add" JVal.null,
      FileState.ok ⟨"add", JVal.null, "def solve(): pass", 2, "t0", "python"⟩)] :
        Store).lookup (get_challenge_hash "add" JVal.null) =
      some (.ok ⟨"add", JVal.null, "def solve(): pass", 2, "t0", "python"⟩) := by
    simp [List.lookup]
  have h1 := (c1_cached_challenge_short_circuits (fun _ => none) (fun _ => some "x")
    (fun _ _ => default) (fun _ _ => default) "t1" "t2"
    [(get_challenge_hash "add" JVal.null,
      FileState.ok ⟨"add", JVal.null, "def solve(): pass", 2, "t0", "python"⟩)]
    "add" JVal.null 5 3 ⟨"add", JVal.null, "def solve(): pass", 2, "t0", "python"⟩
    "def solve(): pass" 2 "Challenge already solved, loaded from disk."
    [(get_challenge_hash "add" JVal.null,
      FileState.ok ⟨"add", JVal.null, "def solve(): pass", 2, "t0", "python"⟩)] 0 0).1 hl
  have h2 := (c1_cached_challenge_short_circuits (fun _ => none) (fun _ => some "x")
    (fun _ _ => default) (fun _ _ => default) "t1" "t2"
    [(get_challenge_hash "add" JVal.null,
      FileState.ok ⟨"add", JVal.null, "def solve(): pass", 2, "t0", "python"⟩)]
    "add" JVal.null 5 3 ⟨"add", JVal.null, "def solve(): pass", 2, "t0", "python"⟩
    "def solve(): pass" 2 "Challenge already solved, loaded from disk."
    [(get_challenge_hash "add" JVal.null,
      FileState.ok ⟨"add", JVal.null, "def solve(): pass", 2, "t0", "python"⟩)] 0 0).2 h1
  exact ⟨hl, h1, h2⟩

/-- C2: a solve call never performs more sandbox executions than
`max_attempts`; and with `max_attempts = 1`, a gateway that always answers
with a response containing a code block, and a sandbox whose report always
has `success = false`, the outcome is `failed` carrying the generated code,
the error details built from the last execution report, and
`attempts_taken = 1`, after exactly one sandbox execution. -/
theorem c2_bounded_attempts :
    ∀ (gem : List Msg → Option String) (exec : String → JVal → Report) (now : String)
      (store : Store) (desc : String) (tc : JVal) (maxA : Nat) (r : Outcome) (store2 : Store)
      (g s : Nat) (resp code : String),
      (solve_challenge_core gem exec now store desc tc maxA = .ok (r, store2, g, s) →
        s ≤ maxA) ∧
      ((∀ hist, gem hist = some resp) → extract_python_code resp = some code →
        (∀ c t, (exec c t).success = false) →
        store.lookup (get_challenge_hash desc tc) = none →
        solve_challenge_core gem exec now store desc tc 1 =
          .ok (.failed code 1 (mkErrorDetails (exec code tc))
                 "Challenge could not be solved within max attempts.", store, 1, 1)) := by
  intro gem exec now store desc tc maxA r store2 g s resp code
  constructor
  · simp only [solve_challenge_core]
    cases hload : load_solved_challenge store (get_challenge_hash desc tc) with
    | error e => intro hr; exact absurd hr (by simp)
    | ok o =>
      cases o with
      | some d =>
        intro hr
        simp only [Except.ok.injEq, Prod.mk.injEq] at hr
        obtain ⟨h1, h2, h3, h4⟩ := hr
        omega
      | none =>
        intro hr
        simp only [Except.ok.injEq] at hr
        have h1 : s = (solveLoop gem exec now desc tc (get_challenge_hash desc tc) maxA 1 [] ""
            default 0 0 store).2.2.2 := by rw [hr]
        rw [h1]
        have := solveLoop_sandbox_bound gem exec now desc tc (get_challenge_hash desc tc) maxA
          1 [] "" default 0 0 store
        omega
  · intro hgem hext hfail hl
    simp only [solve_challenge_core, load_solved_challenge, hl]
    simp only [solveLoop, hgem, hext, hfail]
    simp

/-- C2 witness: with `max_attempts = 1`, a gateway always returning a fixed
code-bearing response, and a sandbox always reporting failure, solve stops
after exactly one sandbox execution with a `failed` outcome. -/
theorem c2_bounded_attempts_witness :
    extract_python_code "```python\ndef solve(a, b):\n    return a - b\n```" =
      some "def solve(a, b):\n    return a - b" ∧
    solve_challenge_core (fun _ => some "```python\ndef solve(a, b):\n    return a - b\n```")
        (fun _ _ => ⟨false, "", none, none, []⟩) "t0" [] "add" JVal.null 1 =
      .ok (.failed "def solve(a, b):\n    return a - b" 1
             (mkErrorDetails ⟨false, "", none, none, []⟩)
             "Challenge could not be solved within max attempts.", [], 1, 1) := by
  have hext : extract_python_code "```python\ndef solve(a, b):\n    return a - b\n```" =
      some "def solve(a, b):\n    return a - b" := by rfl
  exact ⟨hext,
    (c2_bounded_attempts (fun _ => some "```python\ndef solve(a, b):\n    return a - b\n```")
      (fun _ _ => ⟨false, "", none, none, []⟩) "t0" [] "add" JVal.null 1 (.error "") [] 0 0
      "```python\ndef solve(a, b):\n    return a - b\n```" "def solve(a, b):\n    return a - b").2
      (fun _ => rfl) hext (fun _ _ => rfl) rfl⟩

/-- C8: in any loop iteration, a gateway answer of `None` aborts the whole
loop with the gateway-error outcome and no sandbox execution for that
attempt; a gateway answer without an extractable fenced python block aborts
with the distinct no-code-block error outcome, likewise without invoking
the sandbox; both carry status "error", which is distinct from the status
"failed" of an execution failure. -/
theorem c8_gateway_failures_abort :
    ∀ (gem : List Msg → Option String) (exec : String → JVal → Report) (now desc : String)
      (tc : JVal) (h : String) (left attempt : Nat) (hist : List Msg) (lc : String)
      (lr : Report) (g s : Nat) (store : Store) (resp : String),
      (gem (push3 hist ⟨"user", promptFor attempt desc tc lc lr⟩) = none →
        solveLoop gem exec now desc tc h (left + 1) attempt hist lc lr g s store =
          (.error "Failed to get response from Gemini API.", store, g + 1, s)) ∧
      (gem (push3 hist ⟨"user", promptFor attempt desc tc lc lr⟩) = some resp →
        extract_python_code resp = none →
        solveLoop gem exec now desc tc h (left + 1) attempt hist lc lr g s store =
          (.error "No valid Python code block found in Gemini's response.", store, g + 1, s)) ∧
      (Outcome.error "Failed to get response from Gemini API.").status = "error" ∧
      (Outcome.error "No valid Python code block found in Gemini's response.").status = "error" ∧
      (∀ fc att ed m, (Outcome.failed fc att ed m).status ≠ "error") := by
  intro gem exec now desc tc h left attempt hist lc lr g s store resp
  refine ⟨?_, ?_, rfl, rfl, ?_⟩
  · intro hg
    simp only [solveLoop, hg]
  · intro hg he
    simp only [solveLoop, hg, he]
  · intro fc att ed m
    simp [Outcome.status]

/-- C8 witness: concrete loop states hitting the two abort paths. -/
theorem c8_gateway_failures_abort_witness :
    solveLoop (fun _ => none) (fun _ _ => default) "t0" "d" JVal.null "h" 3 1 [] "" default
        0 0 [] = (.error "Failed to get response from Gemini API.", [], 1, 0) ∧
    solveLoop (fun _ => some "no code here") (fun _ _ => default) "t0" "d" JVal.null "h" 3 1
        [] "" default 0 0 [] =
      (.error "No valid Python code block found in Gemini's response.", [], 1, 0) :=
  ⟨(c8_gateway_failures_abort (fun _ => none) (fun _ _ => default) "t0" "d" JVal.null "h" 2 1
      [] "" default 0 0 [] "").1 rfl,
   (c8_gateway_failures_abort (fun _ => some "no code here") (fun _ _ => default) "t0" "d"
      JVal.null "h" 2 1 [] "" default 0 0 [] "no code here").2.1 rfl (by rfl)⟩

/-- C9 counterexample: the registry entry created by `submit_challenge`
carries status "pending", which is not in the set
{submitted, processing, solved, failed, error} stated by the claim. -/
theorem c9_initial_status_pending_cex :
    ¬ ((submitEntry "d" JVal.null 5).status ∈
        (["submitted", "processing", "solved", "failed", "error"] : List String)) := by
  decide

/-- C9 (amended): over the whole lifecycle of a registry entry — creation
by `submit_challenge`, mutation by `run_solver_task` after
`solve_challenge_core` returns, and mutation on a raised exception — the
status is always one of {pending, solved, failed, error}. -/
theorem c9_registry_status_invariant :
    ∀ (desc : String) (tc : JVal) (maxA : Nat) (gem : List Msg → Option String)
      (exec : String → JVal → Report) (now : String) (store : Store) (r : Outcome)
      (store2 : Store) (g s : Nat) (msg : String),
      (submitEntry desc tc maxA).status ∈
        (["pending", "solved", "failed", "error"] : List String) ∧
      (applyTask (submitEntry desc tc maxA) (.raised msg)).status ∈
        (["pending", "solved", "failed", "error"] : List String) ∧
      (solve_challenge_core gem exec now store desc tc maxA = .ok (r, store2, g, s) →
        (applyTask (submitEntry desc tc maxA) (.finished r)).status ∈
          (["pending", "solved", "failed", "error"] : List String)) := by
  intro desc tc maxA gem exec now store r store2 g s msg
  refine ⟨by simp [submitEntry], by simp [applyTask, submitEntry], ?_⟩
  intro hr
  have hst := solve_status gem exec now store desc tc maxA r store2 g s hr
  simp only [applyTask, submitEntry]
  rcases hst with hx | hx | hx <;> simp [hx]

/-- C9 witness: the lifecycle statuses at a concrete submission whose
solver task ends with a gateway-error outcome. -/
theorem c9_registry_status_invariant_witness :
    (submitEntry "d" JVal.null 1).status ∈
      (["pending", "solved", "failed", "error"] : List String) ∧
    (applyTask (submitEntry "d" JVal.null 1) (.raised "boom")).status ∈
      (["pending", "solved", "failed", "error"] : List String) ∧
    (applyTask (submitEntry "d" JVal.null 1)
        (.finished (Outcome.error "Failed to get response from Gemini API."))).status ∈
      (["pending", "solved", "failed", "error"] : List String) :=
  ⟨(c9_registry_status_invariant "d" JVal.null 1 (fun _ => none)
      (fun _ _ => default) "t0" [] (.error "Failed to get response from Gemini API.") [] 1 0
      "boom").1,
   (c9_registry_status_invariant "d" JVal.null 1 (fun _ => none)
      (fun _ _ => default) "t0" [] (.error "Failed to get response from Gemini API.") [] 1 0
      "boom").2.1,
   (c9_registry_status_invariant "d" JVal.null 1 (fun _ => none)
      (fun _ _ => default) "t0" [] (.error "Failed to get response from Gemini API.") [] 1 0
      "boom").2.2 rfl⟩

/-- C10: calling `execute_code` with any language other than "python"
returns a report with `success = false`, exception type
"UnsupportedLanguage", an error message naming the given language, and
empty `test_results`; no temporary directory is created and docker is
never invoked. -/
theorem c10_unsupported_language (env : ExecEnv) (code : String) (tc : JVal) (lang : String)
    (hlang : lang ≠ "python") :
    execute_code env code tc lang =
      (⟨false, "",
        some ("Only 'python' language is supported in this version. Got '" ++ lang ++ "'."),
        some "UnsupportedLanguage", []⟩,
       ⟨false, false, false⟩) := by
  simp [execute_code, hlang]

/-- C10 witness: the unsupported-language report at language "javascript". -/
theorem c10_unsupported_language_witness :
    ("javascript" : String) ≠ "python" ∧
    execute_code ⟨.ok, .ran "" "" none⟩ "print(1)" JVal.null "javascript" =
      (⟨false, "",
        some ("Only 'python' language is supported in this version. Got '" ++ "javascript" ++ "'."),
        some "UnsupportedLanguage", []⟩,
       ⟨false, false, false⟩) :=
  ⟨by decide, c10_unsupported_language ⟨.ok, .ran "" "" none⟩ "print(1)" JVal.null "javascript"
    (by decide)⟩

/-- C7: evaluation of `execute_code` at a run where
`_prepare_temp_directory` raises after `os.makedirs` has created the
per-run directory (for example a failing `shutil.copy` of the runner
script, or a full disk while writing the staged files).  The call returns
an error report, yet the created temporary directory is not removed — the
`finally` block skips cleanup because the local `temp_dir` was never
assigned.  On the paths the claim enumerates (success, test failure,
JSON-decoding failure of the runner output, exceptions raised by the
docker invocation itself) the directory is removed. -/
theorem c7_prepare_failure_leaks_temp_dir :
    execute_code ⟨.raiseAfterMkdir (.other "OSError" "No space left on device"), .ran "" "" none⟩
        "def solve(a, b):\n    return a + b" JVal.null "python" =
      (⟨false, "",
        some "An unexpected error occurred during Docker execution: OSError: No space left on device",
        some "OSError", []⟩,
       ⟨true, false, false⟩) ∧
    (execute_code ⟨.ok, .ran "{}" "" (some ⟨true, "", none, none, []⟩)⟩ "c" JVal.null
        "python").2 = ⟨true, true, true⟩ ∧
    (execute_code ⟨.ok, .ran "{}" "" (some ⟨false, "", none, none, []⟩)⟩ "c" JVal.null
        "python").2 = ⟨true, true, true⟩ ∧
    (execute_code ⟨.ok, .ran "bad output" "err" none⟩ "c" JVal.null "python").2 =
      ⟨true, true, true⟩ ∧
    (execute_code ⟨.ok, .raise (.fileNotFound "docker missing")⟩ "c" JVal.null "python").2 =
      ⟨true, true, true⟩ := by
  refine ⟨rfl, rfl, rfl, rfl, rfl⟩

/-- C6 counterexample: a stored record file that exists but cannot be read
at the OS level makes `load_solved_challenge` raise (the function catches
only `json.JSONDecodeError`), instead of returning a miss. -/
theorem c6_unreadable_record_raises_cex :
    load_solved_challenge [("deadbeef", FileState.unreadable)] "deadbeef" =
      .error "OSError" := by rfl

/-- C6 (amended): a stored record whose content fails JSON decoding is
treated as a cache miss and no error is raised; but an OS-level failure to
open or read the file is not caught and propagates to the caller. -/
theorem c6_corrupt_is_miss_unreadable_raises (store : Store) (h : String) :
    (store.lookup h = some FileState.corrupt → load_solved_challenge store h = .ok none) ∧
    (store.lookup h = some FileState.unreadable →
      load_solved_challenge store h = .error "OSError") := by
  constructor <;> intro hl <;> simp [load_solved_challenge, hl]

/-- C6 witness: concrete corrupt and unreadable stores. -/
theorem c6_corrupt_is_miss_unreadable_raises_witness :
    load_solved_challenge [("a", FileState.corrupt)] "a" = .ok none ∧
    load_solved_challenge [("b", FileState.unreadable)] "b" = .error "OSError" :=
  ⟨(c6_corrupt_is_miss_unreadable_raises [("a", FileState.corrupt)] "a").1 (by decide),
   (c6_corrupt_is_miss_unreadable_raises [("b", FileState.unreadable)] "b").2 (by decide)⟩

/-- C5 counterexample: a fingerprint whose stored record file exists (with
corrupt content) is re-solved and its record is overwritten by the new one
— the system does update an existing record, contrary to the claim. -/
theorem c5_corrupt_record_overwritten_cex :
    ([(get_challenge_hash "add" JVal.null, FileState.corrupt)] : Store).lookup
        (get_challenge_hash "add" JVal.null) = some FileState.corrupt ∧
    solve_challenge_core (fun _ => some "```python\ndef solve(a, b):\n    return a + b\n```")
        (fun _ _ => ⟨true, "", none, none, []⟩) "t0"
        [(get_challenge_hash "add" JVal.null, FileState.corrupt)] "add" JVal.null 5 =
      .ok (.solved "def solve(a, b):\n    return a + b" 1 "Challenge successfully solved.",
           [(get_challenge_hash "add" JVal.null,
             FileState.ok ⟨"add", JVal.null, "def solve(a, b):\n    return a + b", 1, "t0",
               "python"⟩),
            (get_challenge_hash "add" JVal.null, FileState.corrupt)], 1, 1) ∧
    ([(get_challenge_hash "add" JVal.null,
       FileState.ok ⟨"add", JVal.null, "def solve(a, b):\n    return a + b", 1, "t0", "python"⟩),
      (get_challenge_hash "add" JVal.null, FileState.corrupt)] : Store).lookup
        (get_challenge_hash "add" JVal.null) =
      some (FileState.ok ⟨"add", JVal.null, "def solve(a, b):\n    return a + b", 1, "t0",
        "python"⟩) := by
  refine ⟨by simp [List.lookup], ?_, by simp [List.lookup]⟩
  have hext : extract_python_code "```python\ndef solve(a, b):\n    return a + b\n```" =
      some "def solve(a, b):\n    return a + b" := by rfl
  simp [solve_challenge_core, load_solved_challenge, List.lookup, solveLoop, hext,
    save_solved_challenge]

/-- C5 (amended): whenever `solve_challenge_core` returns normally, the
store is either unchanged, or — exactly when the outcome is `solved` via
the attempt loop — extended by one whole record at the challenge's own
fingerprint carrying the returned `final_code` and `attempts_taken`;
non-solved outcomes never write; and a fingerprint whose stored record is
readable is answered from the cache with the store unchanged (so a
readable record is never overwritten by a solve call).  A corrupt record
at the same fingerprint, however, is overwritten on a later success. -/
theorem c5_write_once_on_success :
    ∀ (gem : List Msg → Option String) (exec : String → JVal → Report) (now : String)
      (store : Store) (desc : String) (tc : JVal) (maxA : Nat) (r : Outcome) (store2 : Store)
      (g s : Nat) (d : SolvedData),
      (solve_challenge_core gem exec now store desc tc maxA = .ok (r, store2, g, s) →
        (r.status ≠ "solved" → store2 = store) ∧
        (store2 = store ∨
          ∃ code att, r = .solved code att "Challenge successfully solved." ∧
            store2 = (get_challenge_hash desc tc,
              FileState.ok ⟨desc, tc, code, att, now, "python"⟩) :: store)) ∧
      (store.lookup (get_challenge_hash desc tc) = some (.ok d) →
        solve_challenge_core gem exec now store desc tc maxA =
          .ok (.solved d.final_code d.attempts_taken
            "Challenge already solved, loaded from disk.", store, 0, 0)) := by
  intro gem exec now store desc tc maxA r store2 g s d
  constructor
  · simp only [solve_challenge_core]
    cases hload : load_solved_challenge store (get_challenge_hash desc tc) with
    | error e => intro hr; exact absurd hr (by simp)
    | ok o =>
      cases o with
      | some e =>
        intro hr
        simp only [Except.ok.injEq, Prod.mk.injEq] at hr
        exact ⟨fun _ => hr.2.1.symm, Or.inl hr.2.1.symm⟩
      | none =>
        intro hr
        simp only [Except.ok.injEq] at hr
        have hr1 : (solveLoop gem exec now desc tc (get_challenge_hash desc tc) maxA 1 [] ""
            default 0 0 store).1 = r := by rw [hr]
        have hr2 : (solveLoop gem exec now desc tc (get_challenge_hash desc tc) maxA 1 [] ""
            default 0 0 store).2.1 = store2 := by rw [hr]
        obtain ⟨hsolved, hother⟩ := solveLoop_store_spec gem exec now desc tc
          (get_challenge_hash desc tc) maxA 1 [] "" default 0 0 store
        constructor
        · intro hst
          rw [← hr2]
          exact hother (by rw [hr1]; exact hst)
        · by_cases hst : r.status = "solved"
          · right
            cases r with
            | solved c a m =>
              obtain ⟨hm, hw⟩ := hsolved c a m (by rw [hr1])
              exact ⟨c, a, by rw [hm], by rw [← hr2, hw]; rfl⟩
            | failed c a ed m => simp [Outcome.status] at hst
            | error m => simp [Outcome.status] at hst
          · left
            rw [← hr2]
            exact hother (by rw [hr1]; exact hst)
  · intro hl
    simp [solve_challenge_core, load_solved_challenge, hl]

/-- C5 witness: the write behaviour at a concrete successful run starting
from an empty store, and the no-write behaviour at a concrete cache hit. -/
theorem c5_write_once_on_success_witness :
    ((.error "Failed to get response from Gemini API." : Outcome).status ≠ "solved" →
      ([] : Store) = []) ∧
    (([] : Store) = [] ∨
      ∃ code att,
        (.error "Failed to get response from Gemini API." : Outcome) =
          .solved code att "Challenge successfully solved." ∧
        ([] : Store) = (get_challenge_hash "d" JVal.null,
          FileState.ok ⟨"d", JVal.null, code, att, "t0", "python"⟩) :: []) ∧
    solve_challenge_core (fun _ => none) (fun _ _ => default) "t0"
        [(get_challenge_hash "d" JVal.null,
          FileState.ok ⟨"d", JVal.null, "c0", 1, "t0", "python"⟩)] "d" JVal.null 2 =
      .ok (.solved "c0" 1 "Challenge already solved, loaded from disk.",
           [(get_challenge_hash "d" JVal.null,
             FileState.ok ⟨"d", JVal.null, "c0", 1, "t0", "python"⟩)], 0, 0) := by
  obtain ⟨h1, h2⟩ := (c5_write_once_on_success (fun _ => none) (fun _ _ => default) "t0" []
    "d" JVal.null 2 (.error "Failed to get response from Gemini API.") [] 1 0
    ⟨"d", JVal.null, "c0", 1, "t0", "python"⟩).1 rfl
  have h3 := (c5_write_once_on_success (fun _ => none) (fun _ _ => default) "t0"
    [(get_challenge_hash "d" JVal.null,
      FileState.ok ⟨"d", JVal.null, "c0", 1, "t0", "python"⟩)] "d" JVal.null 2
    (.error "Failed to get response from Gemini API.")
    [(get_challenge_hash "d" JVal.null,
      FileState.ok ⟨"d", JVal.null, "c0", 1, "t0", "python"⟩)] 1 0
    ⟨"d", JVal.null, "c0", 1, "t0", "python"⟩).2 (by simp [List.lookup])
  exact ⟨h1, h2, h3⟩

theorem formatLoop_characterization (failing : List TRes) :
    formatLoop 2 0 failing.length failing =
      ((failing.take 2).map detailLines).flatten ++
        (if 2 < failing.length then
          ["... " ++ String.mk (natChars (failing.length - 2)) ++ " more tests failed."]
        else []) := by
  match failing with
  | [] => simp [formatLoop]
  | [a] => simp [formatLoop]
  | [a, b] => simp [formatLoop]
  | a :: b :: c :: t =>
    have h3 : (a :: b :: c :: t).length = t.length + 3 := by simp
    rw [h3]
    simp only [formatLoop]
    have e1 : (0 : Nat) < 2 := by omega
    have e2 : (1 : Nat) < 2 := by omega
    have e3 : ¬ ((2 : Nat) < 2) := by omega
    have e4 : t.length + 3 - 2 > 0 := by omega
    rw [if_pos e1, if_pos e2, if_neg e3, if_pos e4]
    have e5 : 2 < t.length + 3 := by omega
    rw [if_pos e5]
    simp

/-- C4: when no test result has `passed = false`,
`format_test_results_for_llm` returns the fixed all-passed sentence;
otherwise it renders the detail lines (test number, input, expected versus
actual, and the error line exactly when the error field is truthy) for the
first `min 2 k` failing results in original order (`k` the number of
failing results), followed — exactly when more than 2 results fail — by one
final summary line counting the remaining failures, with no detail for
them. -/
theorem c4_format_test_results :
    ∀ rs : List TRes,
      ((rs.filter (fun r => r.passed == false)).isEmpty = true →
        format_test_results_for_llm rs 2 = "All provided tests passed.") ∧
      ((rs.filter (fun r => r.passed == false)).isEmpty = false →
        format_test_results_for_llm rs 2 =
          String.intercalate "\n"
            ((((rs.filter (fun r => r.passed == false)).take 2).map detailLines).flatten ++
              (if 2 < (rs.filter (fun r => r.passed == false)).length then
                ["... " ++ String.mk
                    (natChars ((rs.filter (fun r => r.passed == false)).length - 2)) ++
                  " more tests failed."]
              else []))) := by
  intro rs
  constructor
  · intro hempty
    simp only [format_test_results_for_llm, hempty, if_true]
  · intro hne
    simp only [format_test_results_for_llm, hne, Bool.false_eq_true, if_false]
    rw [formatLoop_characterization]

/-- C4 witness: a run with no failures yields the fixed sentence; a run
with three failures (among four results) yields two detail blocks and one
summary line counting the remaining failure. -/
theorem c4_format_test_results_witness :
    format_test_results_for_llm [⟨1, JVal.null, JVal.num 2, JVal.num 2, true, none⟩] 2 =
      "All provided tests passed." ∧
    format_test_results_for_llm
        [⟨1, JVal.arr [JVal.num 1], JVal.num 2, JVal.num 3, false, none⟩,
         ⟨2, JVal.arr [JVal.num 5], JVal.num 0, JVal.null, false, some "TypeError"⟩,
         ⟨3, JVal.arr [JVal.num 7], JVal.num 7, JVal.num 7, true, none⟩,
         ⟨4, JVal.arr [JVal.num 9], JVal.num 1, JVal.num 0, false, none⟩] 2 =
      String.intercalate "\n"
        (detailLines ⟨1, JVal.arr [JVal.num 1], JVal.num 2, JVal.num 3, false, none⟩ ++
         detailLines ⟨2, JVal.arr [JVal.num 5], JVal.num 0, JVal.null, false, some "TypeError"⟩ ++
         ["... " ++ String.mk (natChars 1) ++ " more tests failed."]) := by
  refine ⟨(c4_format_test_results
    [⟨1, JVal.null, JVal.num 2, JVal.num 2, true, none⟩]).1 rfl, ?_⟩
  exact (c4_format_test_results
    [⟨1, JVal.arr [JVal.num 1], JVal.num 2, JVal.num 3, false, none⟩,
     ⟨2, JVal.arr [JVal.num 5], JVal.num 0, JVal.null, false, some "TypeError"⟩,
     ⟨3, JVal.arr [JVal.num 7], JVal.num 7, JVal.num 7, true, none⟩,
     ⟨4, JVal.arr [JVal.num 9], JVal.num 1, JVal.num 0, false, none⟩]).2 rfl

/-! ### Fingerprint lemmas (claim C3) -/

theorem packBytes_lt (l : List Nat) : packBytes l < 256 ^ l.length := by
  induction l with
  | nil => simp [packBytes]
  | cons b t ih =>
    have hb : b % 256 < 256 := Nat.mod_lt _ (by norm_num)
    have hp : (256 : Nat) ^ (t.length + 1) = 256 * 256 ^ t.length := by ring
    simp only [packBytes, List.foldr] at ih ⊢
    simp only [List.length_cons, hp]
    omega

theorem packBytes_inj (l1 : List Nat) :
    ∀ l2 : List Nat, l1.length = l2.length → (∀ b ∈ l1, b < 256) → (∀ b ∈ l2, b < 256) →
      packBytes l1 = packBytes l2 → l1 = l2 := by
  induction l1 with
  | nil => intro l2 hlen _ _ _; cases l2 with
    | nil => rfl
    | cons b2 t2 => simp at hlen
  | cons b t ih =>
    intro l2 hlen h1 h2 h
    cases l2 with
    | nil => simp at hlen
    | cons b2 t2 =>
      simp only [packBytes, List.foldr] at h
      have hb : b < 256 := h1 b (by simp)
      have hb2 : b2 < 256 := h2 b2 (by simp)
      rw [Nat.mod_eq_of_lt hb, Nat.mod_eq_of_lt hb2] at h
      have hbeq : b = b2 := by omega
      have ht : packBytes t = packBytes t2 := by
        simp only [packBytes]; omega
      have := ih t2 (by simpa using hlen) (fun x hx => h1 x (by simp [hx]))
        (fun x hx => h2 x (by simp [hx])) ht
      rw [hbeq, this]

theorem md5Bytes_length (m : List Nat) : (md5Bytes m).length = 16 := by
  simp [md5Bytes, leBytes]

theorem md5Bytes_lt (m : List Nat) : ∀ b ∈ md5Bytes m, b < 256 := by
  intro b hb
  simp only [md5Bytes, leBytes, List.mem_append, List.mem_map, List.mem_range] at hb
  rcases hb with ((⟨i, _, rfl⟩ | ⟨i, _, rfl⟩) | ⟨i, _, rfl⟩) | ⟨i, _, rfl⟩ <;>
    exact Nat.mod_lt _ (by norm_num)

/-- C3 counterexample: the fingerprint is an MD5 digest, whose 16-byte range
is finite while descriptions are infinitely many, so it cannot distinguish
every change of description: for the concrete test-case list
`[{"input": [1], "expected_output": 2}]` there exist two different
descriptions with the same fingerprint. -/
theorem c3_fingerprint_not_injective_cex :
    ¬ (∀ d1 d2 : String, d1 ≠ d2 →
        get_challenge_hash d1 (JVal.arr [JVal.obj [("input", JVal.arr [JVal.num 1]),
            ("expected_output", JVal.num 2)]]) ≠
          get_challenge_hash d2 (JVal.arr [JVal.obj [("input", JVal.arr [JVal.num 1]),
            ("expected_output", JVal.num 2)]])) := by
  intro H
  obtain ⟨d1, d2, hne, heq⟩ := Finite.exists_ne_map_eq_of_infinite
    (fun d : String =>
      (⟨packBytes (md5Bytes (utf8Bytes (challenge_str d
          (JVal.arr [JVal.obj [("input", JVal.arr [JVal.num 1]),
            ("expected_output", JVal.num 2)]])))), by
        have h1 := packBytes_lt (md5Bytes (utf8Bytes (challenge_str d
          (JVal.arr [JVal.obj [("input", JVal.arr [JVal.num 1]),
            ("expected_output", JVal.num 2)]]))))
        rwa [md5Bytes_length] at h1⟩ : Fin (256 ^ 16)))
  apply H d1 d2 hne
  have hpack := congrArg Fin.val heq
  simp only at hpack
  have hbytes := packBytes_inj _ _ (by rw [md5Bytes_length, md5Bytes_length])
    (md5Bytes_lt _) (md5Bytes_lt _) hpack
  show md5Hex _ = md5Hex _
  unfold md5Hex
  rw [hbytes]

/-! ### Serializer unambiguity (claim C3) -/

theorem char_toNat_inj {c1 c2 : Char} (h : c1.toNat = c2.toNat) : c1 = c2 :=
  Char.eq_of_val_eq (UInt32.ext h)

theorem digitChar_isDigit : ∀ d : Nat, d < 10 → (Nat.digitChar d).isDigit = true := by decide

theorem digitChar_inj10 : ∀ d1 : Nat, d1 < 10 → ∀ d2 : Nat, d2 < 10 →
    Nat.digitChar d1 = Nat.digitChar d2 → d1 = d2 := by decide

theorem natChars_ne_nil (m : Nat) : natChars m ≠ [] := by
  unfold natChars
  split
  · simp
  · rename_i hm
    simp only [ne_eq, List.reverse_eq_nil_iff, List.map_eq_nil_iff]
    exact Nat.digits_ne_nil_iff_ne_zero.mpr hm

theorem natChars_all_digits (m : Nat) : ∀ c ∈ natChars m, c.isDigit = true := by
  intro c hc
  unfold natChars at hc
  split at hc
  · simp only [List.mem_singleton] at hc
    subst hc
    decide
  · simp only [List.mem_reverse, List.mem_map] at hc
    obtain ⟨d, hd, rfl⟩ := hc
    exact digitChar_isDigit d (Nat.digits_lt_base (by norm_num) hd)

theorem natChars_head (m : Nat) : ∃ c t, natChars m = c :: t ∧ c.isDigit = true := by
  cases hx : natChars m with
  | nil => exact absurd hx (natChars_ne_nil m)
  | cons c t => exact ⟨c, t, rfl, natChars_all_digits m c (by rw [hx]; simp)⟩

theorem mapDigitChar_inj : ∀ l1 l2 : List Nat, (∀ x ∈ l1, x < 10) → (∀ x ∈ l2, x < 10) →
    l1.map Nat.digitChar = l2.map Nat.digitChar → l1 = l2 := by
  intro l1
  induction l1 with
  | nil => intro l2 _ _ h; cases l2 <;> simp_all
  | cons a t ih =>
    intro l2 h1 h2 h
    cases l2 with
    | nil => simp at h
    | cons b t2 =>
      simp only [List.map_cons, List.cons.injEq] at h
      have ha := digitChar_inj10 a (h1 a (by simp)) b (h2 b (by simp)) h.1
      rw [ha, ih t2 (fun x hx => h1 x (by simp [hx])) (fun x hx => h2 x (by simp [hx])) h.2]

theorem natChars_inj (m1 m2 : Nat) (h : natChars m1 = natChars m2) : m1 = m2 := by
  have key : ∀ k : Nat, k ≠ 0 → ¬ (((Nat.digits 10 k).map Nat.digitChar).reverse = ['0']) := by
    intro k hk hctr
    have hmap : (Nat.digits 10 k).map Nat.digitChar = ['0'] := by
      have := congrArg List.reverse hctr
      simpa using this
    have hdig : Nat.digits 10 k = [0] := by
      have hb : ∀ x ∈ Nat.digits 10 k, x < 10 := fun x hx =>
        Nat.digits_lt_base (by norm_num) hx
      have h0 : ([0] : List Nat).map Nat.digitChar = ['0'] := by decide
      exact mapDigitChar_inj _ [0] hb (by simp) (hmap.trans h0.symm)
    have : k = 0 := by
      have := Nat.ofDigits_digits 10 k
      rw [hdig] at this
      simpa [Nat.ofDigits] using this.symm
    exact hk this
  unfold natChars at h
  by_cases h1 : m1 = 0 <;> by_cases h2 : m2 = 0
  · rw [h1, h2]
  · rw [if_pos h1, if_neg h2] at h
    exact absurd h.symm (key m2 h2)
  · rw [if_neg h1, if_pos h2] at h
    exact absurd h (key m1 h1)
  · rw [if_neg h1, if_neg h2] at h
    have hmap := List.reverse_injective h
    have hdig := mapDigitChar_inj _ _
      (fun x hx => Nat.digits_lt_base (by norm_num) hx)
      (fun x hx => Nat.digits_lt_base (by norm_num) hx) hmap
    have e1 := Nat.ofDigits_digits 10 m1
    have e2 := Nat.ofDigits_digits 10 m2
    rw [hdig] at e1
    exact e1.symm.trans e2

theorem natChars_prefix (m1 m2 : Nat) (r1 r2 : List Char) (s1 : stopOk r1) (s2 : stopOk r2)
    (h : natChars m1 ++ r1 = natChars m2 ++ r2) : m1 = m2 ∧ r1 = r2 := by
  rcases List.append_eq_append_iff.mp h with ⟨a, ha, hr⟩ | ⟨a, ha, hr⟩
  · cases a with
    | nil =>
      rw [List.append_nil] at ha
      rw [ha] at h
      exact ⟨natChars_inj _ _ ha.symm, List.append_cancel_left h⟩
    | cons x t =>
      have hx : x.isDigit = true := natChars_all_digits m2 x (by rw [ha]; simp)
      rw [hr] at s1
      simp only [List.cons_append, stopOk] at s1
      rw [s1] at hx
      exact absurd hx (by simp)
  · cases a with
    | nil =>
      rw [List.append_nil] at ha
      rw [ha] at h
      exact ⟨natChars_inj _ _ ha, List.append_cancel_left h⟩
    | cons x t =>
      have hx : x.isDigit = true := natChars_all_digits m1 x (by rw [ha]; simp)
      rw [hr] at s2
      simp only [List.cons_append, stopOk] at s2
      rw [s2] at hx
      exact absurd hx (by simp)

theorem intChars_head (n : Int) : ∃ c t, intChars n = c :: t ∧ (c.isDigit = true ∨ c = '-') := by
  unfold intChars
  split
  · exact ⟨'-', _, rfl, Or.inr rfl⟩
  · obtain ⟨c, t, hct, hd⟩ := natChars_head n.natAbs
    exact ⟨c, t, hct, Or.inl hd⟩

theorem intChars_prefix (n1 n2 : Int) (r1 r2 : List Char) (s1 : stopOk r1) (s2 : stopOk r2)
    (h : intChars n1 ++ r1 = intChars n2 ++ r2) : n1 = n2 ∧ r1 = r2 := by
  unfold intChars at h
  by_cases h1 : n1 < 0 <;> by_cases h2 : n2 < 0
  · rw [if_pos h1, if_pos h2] at h
    simp only [List.cons_append, List.cons.injEq, true_and] at h
    obtain ⟨hm, hr⟩ := natChars_prefix _ _ _ _ s1 s2 h
    exact ⟨by omega, hr⟩
  · rw [if_pos h1, if_neg h2] at h
    obtain ⟨c, t, hct, hd⟩ := natChars_head n2.natAbs
    rw [hct] at h
    simp only [List.cons_append, List.cons.injEq] at h
    rw [← h.1] at hd
    exact absurd hd (by decide)
  · rw [if_neg h1, if_pos h2] at h
    obtain ⟨c, t, hct, hd⟩ := natChars_head n1.natAbs
    rw [hct] at h
    simp only [List.cons_append, List.cons.injEq] at h
    rw [h.1] at hd
    exact absurd hd (by decide)
  · rw [if_neg h1, if_neg h2] at h
    obtain ⟨hm, hr⟩ := natChars_prefix _ _ _ _ s1 s2 h
    exact ⟨by omega, hr⟩

theorem hexv_digitChar : ∀ d : Nat, d < 16 → hexv (Nat.digitChar d) = d := by decide

theorem hexVal4_hex4 (n : Nat) (hn : n < 65536) :
    hexVal4 (Nat.digitChar (n / 4096 % 16)) (Nat.digitChar (n / 256 % 16))
      (Nat.digitChar (n / 16 % 16)) (Nat.digitChar (n % 16)) = n := by
  unfold hexVal4
  rw [hexv_digitChar _ (Nat.mod_lt _ (by norm_num)),
      hexv_digitChar _ (Nat.mod_lt _ (by norm_num)),
      hexv_digitChar _ (Nat.mod_lt _ (by norm_num)),
      hexv_digitChar _ (Nat.mod_lt _ (by norm_num))]
  omega

theorem escDec_plain (c : Char) (r : List Char) (h : ¬ c = '\\') :
    escDec (c :: r) = some (c.toNat, r) := by
  simp [escDec, h]

theorem escDec_two (x : Char) (r : List Char) (hx : ¬ x = 'u') :
    escDec ('\\' :: x :: r) = (unescape x).map (fun n => (n, r)) := by
  simp [escDec, hx]

theorem escDec_u (h1 h2 h3 h4 : Char) (r : List Char)
    (hno : ¬ (55296 ≤ hexVal4 h1 h2 h3 h4 ∧ hexVal4 h1 h2 h3 h4 < 56320)) :
    escDec ('\\' :: 'u' :: h1 :: h2 :: h3 :: h4 :: r) = some (hexVal4 h1 h2 h3 h4, r) := by
  simp [escDec, hno]

theorem escDec_u_pair (h1 h2 h3 h4 g1 g2 g3 g4 : Char) (r : List Char)
    (hyes : 55296 ≤ hexVal4 h1 h2 h3 h4 ∧ hexVal4 h1 h2 h3 h4 < 56320) :
    escDec ('\\' :: 'u' :: h1 :: h2 :: h3 :: h4 :: '\\' :: 'u' :: g1 :: g2 :: g3 :: g4 :: r) =
      some (65536 + (hexVal4 h1 h2 h3 h4 - 55296) * 1024 + (hexVal4 g1 g2 g3 g4 - 56320),
        r) := by
  simp [escDec, hyes]

theorem escDec_escChar (c : Char) (r : List Char) :
    escDec (escChar c ++ r) = some (c.toNat, r) := by
  have hval : c.toNat < 55296 ∨ (57344 ≤ c.toNat ∧ c.toNat < 1114112) := c.valid
  by_cases hq : c = '"'
  · subst hq; rfl
  by_cases hbs : c = '\\'
  · subst hbs; rfl
  by_cases hn : c = '\n'
  · subst hn; rfl
  by_cases hcr : c = '\r'
  · subst hcr; rfl
  by_cases ht : c = '\t'
  · subst ht; rfl
  by_cases h8 : c.toNat = 8
  · have hc : c = Char.ofNat 8 := char_toNat_inj (by rw [h8]; rfl)
    subst hc; rfl
  by_cases h12 : c.toNat = 12
  · have hc : c = Char.ofNat 12 := char_toNat_inj (by rw [h12]; rfl)
    subst hc; rfl
  by_cases hpl : 32 ≤ c.toNat ∧ c.toNat ≤ 126
  · have hech : escChar c = [c] := by
      unfold escChar
      rw [if_neg hq, if_neg hbs, if_neg hn, if_neg hcr, if_neg ht, if_neg h8, if_neg h12,
        if_pos hpl]
    rw [hech, List.singleton_append]
    exact escDec_plain c r hbs
  by_cases hlt : c.toNat < 65536
  · have hech : escChar c = '\\' :: 'u' :: hex4 c.toNat := by
      unfold escChar
      rw [if_neg hq, if_neg hbs, if_neg hn, if_neg hcr, if_neg ht, if_neg h8, if_neg h12,
        if_neg hpl, if_pos hlt]
    rw [hech]
    have hv4 := hexVal4_hex4 c.toNat hlt
    unfold hex4
    simp only [List.cons_append, List.nil_append]
    rw [escDec_u _ _ _ _ r (by rw [hv4]; omega), hv4]
  · have hech : escChar c =
        ('\\' :: 'u' :: hex4 (55296 + (c.toNat - 65536) / 1024)) ++
          ('\\' :: 'u' :: hex4 (56320 + (c.toNat - 65536) % 1024)) := by
      unfold escChar
      rw [if_neg hq, if_neg hbs, if_neg hn, if_neg hcr, if_neg ht, if_neg h8, if_neg h12,
        if_neg hpl, if_neg hlt]
    rw [hech]
    have hhi : 55296 + (c.toNat - 65536) / 1024 < 65536 := by omega
    have hlo : 56320 + (c.toNat - 65536) % 1024 < 65536 := by omega
    have hv1 := hexVal4_hex4 (55296 + (c.toNat - 65536) / 1024) hhi
    have hv2 := hexVal4_hex4 (56320 + (c.toNat - 65536) % 1024) hlo
    unfold hex4
    simp only [List.cons_append, List.nil_append, List.append_assoc]
    rw [escDec_u_pair _ _ _ _ _ _ _ _ r (by rw [hv1]; omega), hv1, hv2]
    have hfin : 65536 + (55296 + (c.toNat - 65536) / 1024 - 55296) * 1024 +
        (56320 + (c.toNat - 65536) % 1024 - 56320) = c.toNat := by omega
    rw [hfin]

theorem escChar_head_ne_quote (c : Char) : ∃ d t, escChar c = d :: t ∧ ¬ d = '"' := by
  unfold escChar
  by_cases h1 : c = '"'
  · rw [if_pos h1]; exact ⟨_, _, rfl, by decide⟩
  rw [if_neg h1]
  by_cases h2 : c = '\\'
  · rw [if_pos h2]; exact ⟨_, _, rfl, by decide⟩
  rw [if_neg h2]
  by_cases h3 : c = '\n'
  · rw [if_pos h3]; exact ⟨_, _, rfl, by decide⟩
  rw [if_neg h3]
  by_cases h4 : c = '\r'
  · rw [if_pos h4]; exact ⟨_, _, rfl, by decide⟩
  rw [if_neg h4]
  by_cases h5 : c = '\t'
  · rw [if_pos h5]; exact ⟨_, _, rfl, by decide⟩
  rw [if_neg h5]
  by_cases h6 : c.toNat = 8
  · rw [if_pos h6]; exact ⟨_, _, rfl, by decide⟩
  rw [if_neg h6]
  by_cases h7 : c.toNat = 12
  · rw [if_pos h7]; exact ⟨_, _, rfl, by decide⟩
  rw [if_neg h7]
  by_cases h8 : 32 ≤ c.toNat ∧ c.toNat ≤ 126
  · rw [if_pos h8]; exact ⟨c, [], rfl, h1⟩
  rw [if_neg h8]
  by_cases h9 : c.toNat < 65536
  · rw [if_pos h9]; exact ⟨_, _, rfl, by decide⟩
  · rw [if_neg h9]
    exact ⟨'\\', 'u' :: hex4 (55296 + (c.toNat - 65536) / 1024) ++
      ('\\' :: 'u' :: hex4 (56320 + (c.toNat - 65536) % 1024)),
      by rw [List.cons_append], by decide⟩

theorem escL_quote_inj : ∀ l1 l2 : List Char, ∀ A B : List Char,
    escL l1 ++ '"' :: A = escL l2 ++ '"' :: B → l1 = l2 ∧ A = B := by
  intro l1
  induction l1 with
  | nil =>
    intro l2 A B h
    cases l2 with
    | nil =>
      simp only [escL, List.nil_append, List.cons.injEq] at h
      exact ⟨rfl, h.2⟩
    | cons c2 t2 =>
      simp only [escL, List.nil_append, List.append_assoc] at h
      obtain ⟨d, t, hdt, hne⟩ := escChar_head_ne_quote c2
      rw [hdt] at h
      simp only [List.cons_append, List.cons.injEq] at h
      exact absurd h.1.symm hne
  | cons c1 t1 ih =>
    intro l2 A B h
    cases l2 with
    | nil =>
      simp only [escL, List.nil_append, List.append_assoc] at h
      obtain ⟨d, t, hdt, hne⟩ := escChar_head_ne_quote c1
      rw [hdt] at h
      simp only [List.cons_append, List.cons.injEq] at h
      exact absurd h.1 hne
    | cons c2 t2 =>
      simp only [escL, List.append_assoc] at h
      have h1 := escDec_escChar c1 (escL t1 ++ '"' :: A)
      have h2 := escDec_escChar c2 (escL t2 ++ '"' :: B)
      rw [h, h2] at h1
      simp only [Option.some.injEq, Prod.mk.injEq] at h1
      have hc : c1 = c2 := char_toNat_inj h1.1.symm
      obtain ⟨hl, hA⟩ := ih t2 A B h1.2.symm
      exact ⟨by rw [hc, hl], hA⟩

theorem strChars_prefix (s1 s2 : String) (A B : List Char)
    (h : strChars s1 ++ A = strChars s2 ++ B) : s1 = s2 ∧ A = B := by
  simp only [strChars, List.cons_append, List.append_assoc, List.cons.injEq,
    List.singleton_append] at h
  obtain ⟨hdata, hAB⟩ := escL_quote_inj s1.data s2.data A B h.2
  exact ⟨String.ext hdata, hAB⟩

theorem serHeadClass_digit (c : Char) (h : c.isDigit = true) : serHeadClass c = 5 := by
  unfold serHeadClass
  have h1 : ¬ c = 'n' := by rintro rfl; exact absurd h (by decide)
  have h2 : ¬ (c = 't' ∨ c = 'f') := by rintro (rfl | rfl) <;> exact absurd h (by decide)
  have h3 : ¬ c = '"' := by rintro rfl; exact absurd h (by decide)
  have h4 : ¬ c = '[' := by rintro rfl; exact absurd h (by decide)
  have h5 : ¬ c = lbrace := by rintro rfl; exact absurd h (by decide)
  rw [if_neg h1, if_neg h2, if_neg h3, if_neg h4, if_neg h5, if_pos (Or.inl h)]

theorem jclass_le (v : JVal) : jclass v ≤ 5 := by
  cases v with
  | null => show (0 : Nat) ≤ 5; decide
  | bool b => show (1 : Nat) ≤ 5; decide
  | num n => show (5 : Nat) ≤ 5; decide
  | str s => show (2 : Nat) ≤ 5; decide
  | arr l => show (3 : Nat) ≤ 5; decide
  | obj l => show (4 : Nat) ≤ 5; decide

theorem ser_head : ∀ v : JVal, ∃ c t, ser v = c :: t ∧ serHeadClass c = jclass v := by
  intro v
  cases v with
  | null => exact ⟨'n', ['u', 'l', 'l'], by simp [ser], by decide⟩
  | bool b =>
    cases b with
    | true => exact ⟨'t', ['r', 'u', 'e'], by simp [ser], by decide⟩
    | false => exact ⟨'f', ['a', 'l', 's', 'e'], by simp [ser], by decide⟩
  | num n =>
    obtain ⟨c, t, hct, hd⟩ := intChars_head n
    refine ⟨c, t, by simp [ser, hct], ?_⟩
    rcases hd with h | h
    · rw [serHeadClass_digit c h]; rfl
    · rw [h]; rfl
  | str s => exact ⟨'"', escL s.data ++ ['"'], by simp [ser, strChars], rfl⟩
  | arr l => exact ⟨'[', serItems l ++ [']'], by simp [ser], rfl⟩
  | obj l => exact ⟨lbrace, serEntries l ++ [rbrace], by simp [ser], rfl⟩

theorem ser_app_head_class (v1 v2 : JVal) (r1 r2 : List Char)
    (h : ser v1 ++ r1 = ser v2 ++ r2) : jclass v1 = jclass v2 := by
  obtain ⟨c1, t1, e1, k1⟩ := ser_head v1
  obtain ⟨c2, t2, e2, k2⟩ := ser_head v2
  rw [e1, e2] at h
  simp only [List.cons_append, List.cons.injEq] at h
  rw [← k1, ← k2, h.1]

theorem ser_head_stop (v : JVal) (x : Char) (hx : serHeadClass x = 6) (r1 r2 : List Char) :
    ¬ (ser v ++ r1 = x :: r2) := by
  intro h
  obtain ⟨c, t, e, k⟩ := ser_head v
  rw [e] at h
  simp only [List.cons_append, List.cons.injEq] at h
  rw [h.1, hx] at k
  have := jclass_le v
  omega

theorem stopOk_itemsTail (t : List JVal) (r : List Char) :
    stopOk (serItemsTail t ++ ']' :: r) := by
  cases t with
  | nil => simp [serItemsTail, stopOk]
  | cons w t2 => simp [serItemsTail, stopOk]

theorem stopOk_entriesTail (t : List (String × JVal)) (r : List Char) :
    stopOk (serEntriesTail t ++ rbrace :: r) := by
  cases t with
  | nil =>
    simp only [serEntriesTail, List.nil_append]
    show (rbrace).isDigit = false
    decide
  | cons p t2 =>
    cases p with
    | mk k v => simp [serEntriesTail, stopOk]

theorem ser_unambiguous : ∀ n : Nat,
    (∀ v1 v2 : JVal, ∀ r1 r2 : List Char, sizeOf v1 ≤ n → stopOk r1 → stopOk r2 →
      ser v1 ++ r1 = ser v2 ++ r2 → v1 = v2 ∧ r1 = r2) ∧
    (∀ l1 l2 : List JVal, ∀ r1 r2 : List Char, sizeOf l1 ≤ n →
      serItems l1 ++ ']' :: r1 = serItems l2 ++ ']' :: r2 → l1 = l2 ∧ r1 = r2) ∧
    (∀ l1 l2 : List JVal, ∀ r1 r2 : List Char, sizeOf l1 ≤ n →
      serItemsTail l1 ++ ']' :: r1 = serItemsTail l2 ++ ']' :: r2 → l1 = l2 ∧ r1 = r2) ∧
    (∀ e1 e2 : List (String × JVal), ∀ r1 r2 : List Char, sizeOf e1 ≤ n →
      serEntries e1 ++ rbrace :: r1 = serEntries e2 ++ rbrace :: r2 → e1 = e2 ∧ r1 = r2) ∧
    (∀ e1 e2 : List (String × JVal), ∀ r1 r2 : List Char, sizeOf e1 ≤ n →
      serEntriesTail e1 ++ rbrace :: r1 = serEntriesTail e2 ++ rbrace :: r2 →
        e1 = e2 ∧ r1 = r2) := by
  intro n
  induction n using Nat.strong_induction_on with
  | _ n ih =>
    refine ⟨?_, ?_, ?_, ?_, ?_⟩
    · intro v1 v2 r1 r2 hn s1 s2 h
      have hcl := ser_app_head_class v1 v2 r1 r2 h
      cases v1 <;> cases v2 <;>
        first
          | (simp only [jclass] at hcl; exact absurd hcl (by decide))
          | skip
      · simp only [ser, List.cons_append, List.nil_append, List.cons.injEq, true_and] at h
        exact ⟨rfl, h⟩
      · rename_i b1 b2
        cases b1 <;> cases b2 <;>
          simp only [ser, List.cons_append, List.nil_append, List.cons.injEq, true_and] at h <;>
          first
            | (exact ⟨rfl, h⟩)
            | (exact absurd h.1 (by decide))
      · rename_i n1 n2
        simp only [ser] at h
        obtain ⟨he, hr⟩ := intChars_prefix n1 n2 r1 r2 s1 s2 h
        exact ⟨by rw [he], hr⟩
      · rename_i q1 q2
        simp only [ser] at h
        obtain ⟨he, hr⟩ := strChars_prefix q1 q2 r1 r2 h
        exact ⟨by rw [he], hr⟩
      · rename_i la lb
        simp only [ser, List.cons_append, List.append_assoc, List.singleton_append,
          List.cons.injEq, true_and] at h
        have hlt : sizeOf la < n := by
          rw [JVal.arr.sizeOf_spec] at hn
          omega
        obtain ⟨hl, hr⟩ := (ih (sizeOf la) hlt).2.1 la lb r1 r2 le_rfl h
        exact ⟨by rw [hl], hr⟩
      · rename_i ea eb
        simp only [ser, List.cons_append, List.append_assoc, List.singleton_append,
          List.cons.injEq, true_and] at h
        have hlt : sizeOf ea < n := by
          rw [JVal.obj.sizeOf_spec] at hn
          omega
        obtain ⟨hl, hr⟩ := (ih (sizeOf ea) hlt).2.2.2.1 ea eb r1 r2 le_rfl h
        exact ⟨by rw [hl], hr⟩
    · intro l1 l2 r1 r2 hn h
      cases l1 with
      | nil =>
        cases l2 with
        | nil =>
          simp only [serItems, List.nil_append, List.cons.injEq, true_and] at h
          exact ⟨rfl, h⟩
        | cons w t =>
          simp only [serItems, List.nil_append, List.append_assoc] at h
          exact absurd h.symm (ser_head_stop w ']' (by decide) _ _)
      | cons w1 t1 =>
        cases l2 with
        | nil =>
          simp only [serItems, List.nil_append, List.append_assoc] at h
          exact absurd h (ser_head_stop w1 ']' (by decide) _ _)
        | cons w2 t2 =>
          simp only [serItems, List.append_assoc] at h
          have hw : sizeOf w1 < n := by
            simp only [List.cons.sizeOf_spec] at hn
            omega
          obtain ⟨hv, hrest⟩ := (ih (sizeOf w1) hw).1 w1 w2 _ _ le_rfl
            (stopOk_itemsTail t1 r1) (stopOk_itemsTail t2 r2) h
          have ht : sizeOf t1 < n := by
            simp only [List.cons.sizeOf_spec] at hn
            omega
          obtain ⟨htl, hr⟩ := (ih (sizeOf t1) ht).2.2.1 t1 t2 r1 r2 le_rfl hrest
          exact ⟨by rw [hv, htl], hr⟩
    · intro l1 l2 r1 r2 hn h
      cases l1 with
      | nil =>
        cases l2 with
        | nil =>
          simp only [serItemsTail, List.nil_append, List.cons.injEq, true_and] at h
          exact ⟨rfl, h⟩
        | cons w t =>
          simp only [serItemsTail, List.nil_append, List.cons_append, List.cons.injEq] at h
          exact absurd h.1 (by decide)
      | cons w1 t1 =>
        cases l2 with
        | nil =>
          simp only [serItemsTail, List.nil_append, List.cons_append, List.cons.injEq] at h
          exact absurd h.1 (by decide)
        | cons w2 t2 =>
          simp only [serItemsTail, List.cons_append, List.append_assoc, List.cons.injEq,
            true_and] at h
          have hw : sizeOf w1 < n := by
            simp only [List.cons.sizeOf_spec] at hn
            omega
          obtain ⟨hv, hrest⟩ := (ih (sizeOf w1) hw).1 w1 w2 _ _ le_rfl
            (stopOk_itemsTail t1 r1) (stopOk_itemsTail t2 r2) h
          have ht : sizeOf t1 < n := by
            simp only [List.cons.sizeOf_spec] at hn
            omega
          obtain ⟨htl, hr⟩ := (ih (sizeOf t1) ht).2.2.1 t1 t2 r1 r2 le_rfl hrest
          exact ⟨by rw [hv, htl], hr⟩
    · intro e1 e2 r1 r2 hn h
      cases e1 with
      | nil =>
        cases e2 with
        | nil =>
          simp only [serEntries, List.nil_append, List.cons.injEq, true_and] at h
          exact ⟨rfl, h⟩
        | cons p t =>
          obtain ⟨k, v⟩ := p
          simp only [serEntries, List.nil_append, List.append_assoc, strChars,
            List.cons_append, List.cons.injEq] at h
          exact absurd h.1 (by decide)
      | cons p1 t1 =>
        obtain ⟨k1, v1⟩ := p1
        cases e2 with
        | nil =>
          simp only [serEntries, List.nil_append, List.append_assoc, strChars,
            List.cons_append, List.cons.injEq] at h
          exact absurd h.1 (by decide)
        | cons p2 t2 =>
          obtain ⟨k2, v2⟩ := p2
          simp only [serEntries, List.append_assoc, List.cons_append] at h
          obtain ⟨hk, hrest⟩ := strChars_prefix k1 k2 _ _ h
          simp only [List.cons.injEq, true_and] at hrest
          have hv : sizeOf v1 < n := by
            simp only [List.cons.sizeOf_spec, Prod.mk.sizeOf_spec] at hn
            omega
          obtain ⟨hveq, hrest2⟩ := (ih (sizeOf v1) hv).1 v1 v2 _ _ le_rfl
            (stopOk_entriesTail t1 r1) (stopOk_entriesTail t2 r2) hrest
          have ht : sizeOf t1 < n := by
            simp only [List.cons.sizeOf_spec] at hn
            omega
          obtain ⟨hteq, hr⟩ := (ih (sizeOf t1) ht).2.2.2.2 t1 t2 r1 r2 le_rfl hrest2
          exact ⟨by rw [hk, hveq, hteq], hr⟩
    · intro e1 e2 r1 r2 hn h
      cases e1 with
      | nil =>
        cases e2 with
        | nil =>
          simp only [serEntriesTail, List.nil_append, List.cons.injEq, true_and] at h
          exact ⟨rfl, h⟩
        | cons p t =>
          obtain ⟨k, v⟩ := p
          simp only [serEntriesTail, List.nil_append, List.cons_append, List.cons.injEq] at h
          exact absurd h.1 (by decide)
      | cons p1 t1 =>
        obtain ⟨k1, v1⟩ := p1
        cases e2 with
        | nil =>
          simp only [serEntriesTail, List.nil_append, List.cons_append, List.cons.injEq] at h
          exact absurd h.1 (by decide)
        | cons p2 t2 =>
          obtain ⟨k2, v2⟩ := p2
          simp only [serEntriesTail, List.cons_append, List.append_assoc, List.cons.injEq,
            true_and] at h
          obtain ⟨hk, hrest⟩ := strChars_prefix k1 k2 _ _ h
          simp only [List.cons.injEq, true_and] at hrest
          have hv : sizeOf v1 < n := by
            simp only [List.cons.sizeOf_spec, Prod.mk.sizeOf_spec] at hn
            omega
          obtain ⟨hveq, hrest2⟩ := (ih (sizeOf v1) hv).1 v1 v2 _ _ le_rfl
            (stopOk_entriesTail t1 r1) (stopOk_entriesTail t2 r2) hrest
          have ht : sizeOf t1 < n := by
            simp only [List.cons.sizeOf_spec] at hn
            omega
          obtain ⟨hteq, hr⟩ := (ih (sizeOf t1) ht).2.2.2.2 t1 t2 r1 r2 le_rfl hrest2
          exact ⟨by rw [hk, hveq, hteq], hr⟩

/-- C3 (amended): the fingerprint is MD5 of the canonical string
`description + json.dumps(test_cases, sort_keys=True) + "python"`.
Re-serializing `test_cases` with object keys in a different order leaves
the canonical form — hence the fingerprint — unchanged; any change to the
description (with the test cases fixed) changes the canonical string fed
to MD5, and any change of test-case content (one whose canonical forms
differ, such as a changed input or expected_output) changes the canonical
string as well; only the final MD5 digest can identify two different
canonical strings. -/
theorem c3_fingerprint_canonicalization :
    ∀ (desc d1 d2 : String) (tc tc1 tc2 : JVal),
      (canon tc1 = canon tc2 →
        get_challenge_hash desc tc1 = get_challenge_hash desc tc2) ∧
      (d1 ≠ d2 → challenge_str d1 tc ≠ challenge_str d2 tc) ∧
      (canon tc1 ≠ canon tc2 → challenge_str desc tc1 ≠ challenge_str desc tc2) := by
  intro desc d1 d2 tc tc1 tc2
  refine ⟨?_, ?_, ?_⟩
  · intro h
    unfold get_challenge_hash challenge_str dumpsSorted
    rw [h]
  · intro hne heq
    apply hne
    unfold challenge_str at heq
    have hd := congrArg String.data heq
    simp only [String.data_append] at hd
    have hd2 : d1.data ++ ((dumpsSorted tc).data ++ "python".data) =
        d2.data ++ ((dumpsSorted tc).data ++ "python".data) := by
      simpa [List.append_assoc] using hd
    exact String.ext (List.append_cancel_right hd2)
  · intro hne heq
    apply hne
    unfold challenge_str dumpsSorted at heq
    have hd := congrArg String.data heq
    simp only [String.data_append, List.append_assoc] at hd
    have hd2 := List.append_cancel_left hd
    have hpy : stopOk ("python".data) := by
      show ('p' : Char).isDigit = false
      decide
    have := (ser_unambiguous (sizeOf (canon tc1))).1 (canon tc1) (canon tc2) _ _ le_rfl
      hpy hpy hd2
    exact this.1

/-- C3 witness: reordering the object keys of a test case leaves the
fingerprint unchanged; changing the description or a test value changes
the canonical pre-hash string. -/
theorem c3_fingerprint_canonicalization_witness :
    get_challenge_hash "add"
        (JVal.arr [JVal.obj [("input", JVal.arr [JVal.num 1]), ("expected_output", JVal.num 2)]]) =
      get_challenge_hash "add"
        (JVal.arr [JVal.obj [("expected_output", JVal.num 2), ("input", JVal.arr [JVal.num 1])]]) ∧
    challenge_str "add"
        (JVal.arr [JVal.obj [("input", JVal.arr [JVal.num 1]), ("expected_output", JVal.num 2)]]) ≠
      challenge_str "add two numbers"
        (JVal.arr [JVal.obj [("input", JVal.arr [JVal.num 1]), ("expected_output", JVal.num 2)]]) ∧
    challenge_str "add"
        (JVal.arr [JVal.obj [("input", JVal.arr [JVal.num 1]), ("expected_output", JVal.num 2)]]) ≠
      challenge_str "add"
        (JVal.arr [JVal.obj [("input", JVal.arr [JVal.num 1]), ("expected_output", JVal.num 7)]]) := by
  refine ⟨?_, ?_, ?_⟩
  · exact (c3_fingerprint_canonicalization "add" "" "" JVal.null
      (JVal.arr [JVal.obj [("input", JVal.arr [JVal.num 1]), ("expected_output", JVal.num 2)]])
      (JVal.arr [JVal.obj [("expected_output", JVal.num 2),
        ("input", JVal.arr [JVal.num 1])]])).1
      (by simp +decide [canon, canonList, canonEntries, sortByKey, insertByKey])
  · exact (c3_fingerprint_canonicalization "" "add" "add two numbers"
      (JVal.arr [JVal.obj [("input", JVal.arr [JVal.num 1]), ("expected_output", JVal.num 2)]])
      JVal.null JVal.null).2.1 (by decide)
  · exact (c3_fingerprint_canonicalization "add" "" ""
      JVal.null
      (JVal.arr [JVal.obj [("input", JVal.arr [JVal.num 1]), ("expected_output", JVal.num 2)]])
      (JVal.arr [JVal.obj [("input", JVal.arr [JVal.num 1]),
        ("expected_output", JVal.num 7)]])).2.2
      (by simp +decide [canon, canonList, canonEntries, sortByKey, insertByKey])
